/-
Verification of the VRP planner solver (src/solver.rs, src/traits.rs).

Shallow embedding conventions:
* Rust `i32`/`i64` values become `Int` (no claim under scrutiny depends on
  wrap-around behaviour); container indices are `Nat`.
* Coordinates are modelled at the level of the integer-scaled canonical key
  `(round(lat*10^6), round(lng*10^6))` that the solver uses for all hashing
  and matrix lookups (`coord_to_int_key`), i.e. `Coord := Int × Int` and the
  key function is the identity.  Nothing the solver does distinguishes two
  coordinates with equal keys.
* The `AvailabilityProvider` is the pure function the solver consumes:
  `Nat → Int → Option (List (Int × Int))` (solver.rs indexes the returned
  value and iterates over its segments, i.e. the multi-segment form).
* `HashMap<(i64,i64), usize>` becomes an association list with first-match
  lookup; `build_coord_index` is only ever applied to the deduplicated
  location list, whose keys are distinct, so first-match agrees with the
  Rust map.
* Rust's panicking `map[key]` / `vec[idx]` lookups are modelled with
  defaulting lookups (`getD`); the safety claim shows the defaults are
  never consulted.
* `SolveOptions.target_time_weight` / `reassignment_penalty` are threaded
  to the scheduler as the two integers `wt`, `rp` (the Rust code passes the
  whole `&SolveOptions`; the scheduler reads exactly these two fields).
-/
import Mathlib

namespace VrpPlanner

/-- Integer-scaled canonical coordinate key, `(round(lat*1e6), round(lng*1e6))`. -/
abbrev Coord := Int × Int

/-- `coord_to_int_key` from solver.rs: coordinates are already modelled in key
space, so the key function is the identity. -/
def coord_to_int_key (c : Coord) : Int × Int := c

/-- Pin type for routing constraints (traits.rs `VisitPinType`). -/
inductive VisitPinType where
  | none
  | visitor
  | date
  | visitorAndDate
  deriving DecidableEq, Repr

/-- Reason why a visit could not be assigned (traits.rs `UnassignedReason`). -/
inductive UnassignedReason where
  | wrongDate
  | missingPinnedVisitor
  | noCapableVisitor
  | noFeasibleWindow
  deriving DecidableEq, Repr

/-- A visit (traits.rs `Visit`); trait getters become record fields. -/
structure Visit where
  id : Nat
  estimated_duration_minutes : Int
  committed_window : Option (Int × Int)
  target_time : Option Int
  pin_type : VisitPinType
  pinned_visitor : Option Nat
  pinned_date : Option Int
  required_capabilities : List String
  location : Coord
  current_visitor_id : Option Nat
  deriving DecidableEq, Repr

/-- A visitor (traits.rs `Visitor`). -/
structure Visitor where
  id : Nat
  start_location : Option Coord
  end_location : Option Coord
  capabilities : List String
  deriving DecidableEq, Repr

/-- The availability provider, as the pure function the solver consumes. -/
abbrev AvailFn := Nat → Int → Option (List (Int × Int))

/-- The distance-matrix provider, as the pure function the solver consumes. -/
abbrev MatrixFn := List Coord → List (List Int)

/-- Mutable per-visitor route state during solve (solver.rs `RouteState`). -/
structure RouteState where
  visitor : Visitor
  visits : List Visit
  estimated_windows : List (Int × Int)
  total_travel_time : Int
  deriving DecidableEq, Repr

/-- One entry of the result (solver.rs `RouteResult`). -/
structure RouteResult where
  visitor_id : Nat
  visit_ids : List Nat
  estimated_windows : List (Int × Int)
  total_travel_time : Int
  deriving DecidableEq, Repr

/-- An unassigned visit with its reason (solver.rs `UnassignedVisit`). -/
structure UnassignedVisit where
  visit_id : Nat
  reason : UnassignedReason
  deriving DecidableEq, Repr

/-- The planner result (solver.rs `PlannerResult`). -/
structure PlannerResult where
  routes : List RouteResult
  unassigned : List UnassignedVisit
  deriving DecidableEq, Repr

/-- Solver options (solver.rs `SolveOptions`). -/
structure SolveOptions where
  target_time_weight : Int
  reassignment_penalty : Int
  local_search_iterations : Nat
  deriving DecidableEq, Repr

/-! ### Geo primitives and coordinate index -/

/-- `dedupe_locations` from solver.rs: keep the first occurrence of every
coordinate key (the Rust `seen` map is used only through `contains_key`). -/
def dedupe_aux : List Coord → List (Int × Int) → List Coord
  | [], _ => []
  | l :: rest, seen =>
    let key := coord_to_int_key l
    if key ∈ seen then dedupe_aux rest seen
    else l :: dedupe_aux rest (key :: seen)

def dedupe_locations (locations : List Coord) : List Coord :=
  dedupe_aux locations []

/-- `collect_locations` from solver.rs: visitor start/end locations, then all
visit locations, deduplicated. -/
def collect_locations (visits : List Visit) (visitors : List Visitor) : List Coord :=
  dedupe_locations
    ((visitors.flatMap fun r =>
        (r.start_location.toList) ++ (r.end_location.toList))
      ++ visits.map Visit.location)

/-- `build_coord_index` from solver.rs: key ↦ index association list. -/
def build_coord_index (locations : List Coord) : List ((Int × Int) × Nat) :=
  locations.enum.map fun p => (coord_to_int_key p.2, p.1)

/-- `travel_time_fast` from solver.rs.  The Rust map/vector indexing panics on
a missing key or out-of-range index; the defaults below model that junk value
and are proved (claim on safety) never to be consulted during a solve. -/
def travel_time_fast (f t : Coord) (matrix : List (List Int))
    (coord_index : List ((Int × Int) × Nat)) : Int :=
  let from_idx := ((coord_index.lookup (coord_to_int_key f)).getD 0)
  let to_idx := ((coord_index.lookup (coord_to_int_key t)).getD 0)
  ((matrix.getD from_idx []).getD to_idx 0)

/-! ### Scheduler -/

/-- Inner loop of `find_fitting_window` (solver.rs): walk the availability
segments starting at index `idx`, which enumerates `windows.drop idx`. -/
def find_fitting_aux (earliest_start duration : Int)
    (committed_window : Option (Int × Int)) :
    List (Int × Int) → Nat → Option (Int × Nat)
  | [], _ => none
  | (window_start, window_end) :: rest, idx =>
    let start_in_window := max earliest_start window_start
    match committed_window with
    | some (committed_start, committed_end) =>
      if committed_end < window_start then none
      else if committed_start > window_end then
        find_fitting_aux earliest_start duration committed_window rest (idx + 1)
      else
        let adjusted_start := max start_in_window committed_start
        let end_time := adjusted_start + duration
        if end_time ≤ window_end ∧ adjusted_start ≤ committed_end ∧ end_time ≤ committed_end then
          some (adjusted_start, idx)
        else
          find_fitting_aux earliest_start duration committed_window rest (idx + 1)
    | none =>
      let end_time := start_in_window + duration
      if end_time ≤ window_end then some (start_in_window, idx)
      else find_fitting_aux earliest_start duration committed_window rest (idx + 1)

/-- `find_fitting_window` from solver.rs: earliest segment from
`current_window_idx` onward in which the visit fits entirely. -/
def find_fitting_window (earliest_start duration : Int) (current_window_idx : Nat)
    (windows : List (Int × Int)) (committed_window : Option (Int × Int)) :
    Option (Int × Nat) :=
  find_fitting_aux earliest_start duration committed_window
    (windows.drop current_window_idx) current_window_idx

/-- The per-visit loop body state threading of `compute_schedule`:
process the visits in order, carrying `time`, `current_window_idx` and
`prev_location`; returns the windows list and the accumulated cost. -/
def schedule_visits (availability_windows : List (Int × Int))
    (matrix : List (List Int)) (coord_index : List ((Int × Int) × Nat))
    (wt rp : Int) (visitor_id : Nat) :
    List Visit → Int → Nat → Coord → Option (List (Int × Int) × Int)
  | [], _, _, _ => some ([], 0)
  | visit :: rest, time, current_window_idx, prev_location =>
    let travel := travel_time_fast prev_location visit.location matrix coord_index
    let time := time + travel
    let duration_secs := visit.estimated_duration_minutes * 60
    let committed_ok : Option Int :=
      match visit.committed_window with
      | some (committed_start, committed_end) =>
        let time := if time < committed_start then committed_start else time
        if time > committed_end then none else some time
      | none => some time
    match committed_ok with
    | none => none
    | some time =>
      match find_fitting_window time duration_secs current_window_idx
          availability_windows visit.committed_window with
      | none => none
      | some (start_time, window_idx) =>
        let target_cost : Int :=
          match visit.target_time with
          | some target => |start_time - target| * wt
          | none => 0
        let reassign_cost : Int :=
          match visit.current_visitor_id with
          | some current_visitor => if current_visitor ≠ visitor_id then rp else 0
          | none => 0
        match schedule_visits availability_windows matrix coord_index wt rp visitor_id
            rest (start_time + duration_secs) window_idx visit.location with
        | none => none
        | some (result_windows, cost_rest) =>
          some ((start_time, start_time + duration_secs) :: result_windows,
            travel + target_cost + reassign_cost + cost_rest)

/-- `compute_schedule` from solver.rs. -/
def compute_schedule (service_date : Int) (route : RouteState) (availability : AvailFn)
    (matrix : List (List Int)) (coord_index : List ((Int × Int) × Nat))
    (wt rp : Int) : Option (List (Int × Int) × Int) :=
  match availability route.visitor.id service_date with
  | none => none
  | some availability_windows =>
    if availability_windows = [] then none
    else
      let prev_location : Coord :=
        ((route.visitor.start_location).orElse
          (fun _ => route.visits.head?.map Visit.location)).getD (0, 0)
      schedule_visits availability_windows matrix coord_index wt rp route.visitor.id
        route.visits ((availability_windows.headD (0, 0)).1) 0 prev_location

/-! ### Classification (the first loop of `solve`) -/

/-- `visitor_can_do` from solver.rs. -/
def visitor_can_do (visit : Visit) (visitor : Visitor) : Bool :=
  let required := visit.required_capabilities
  if required.isEmpty then true
  else required.all fun cap => visitor.capabilities.contains cap

/-- `visit_is_compatible` from solver.rs. -/
def visit_is_compatible (visit : Visit) (visitors : List Visitor) : Bool :=
  visitors.any fun visitor => visitor_can_do visit visitor

/-- Where the classification loop of `solve` sends a visit. -/
inductive VisitClass where
  | toAssign
  | pinnedTo (visitor_id : Nat)
  | unassignedAs (reason : UnassignedReason)
  deriving DecidableEq, Repr

/-- The `match visit.pin_type()` arm of the classification loop. -/
def classify_pin (visit : Visit) : VisitClass :=
  match visit.pin_type with
  | .visitor | .visitorAndDate =>
    match visit.pinned_visitor with
    | some visitor_id => .pinnedTo visitor_id
    | none => .unassignedAs .missingPinnedVisitor
  | .date | .none => .toAssign

/-- One iteration of the classification loop of `solve`. -/
def classify_visit (service_date : Int) (visit : Visit) : VisitClass :=
  match visit.pinned_date with
  | some date =>
    if date ≠ service_date then .unassignedAs .wrongDate else classify_pin visit
  | none => classify_pin visit

/-- `to_assign` after the classification loop (the loop appends in input
order, which the filter reproduces). -/
def to_assign (service_date : Int) (visits : List Visit) : List Visit :=
  visits.filter fun v => classify_visit service_date v == .toAssign

/-- `unassigned_with_reason` after the classification loop. -/
def initial_unassigned (service_date : Int) (visits : List Visit) :
    List (Visit × UnassignedReason) :=
  visits.filterMap fun v =>
    match classify_visit service_date v with
    | .unassignedAs reason => some (v, reason)
    | _ => none

/-- The `pinned_assignments` bucket of one visitor id (the map's per-key Vec
is pushed in input order, which the filter reproduces). -/
def pinned_for (service_date : Int) (visits : List Visit) (visitor_id : Nat) :
    List Visit :=
  visits.filter fun v => classify_visit service_date v == .pinnedTo visitor_id

/-! ### Seeding pinned routes -/

/-- One iteration of the route-seeding loop of `solve`: build the visitor's
route from its pinned bucket; on infeasibility drain the visits into
`unassigned` with `NoFeasibleWindow`. -/
def seed_route (service_date : Int) (availability : AvailFn)
    (matrix : List (List Int)) (coord_index : List ((Int × Int) × Nat))
    (wt rp : Int) (pinned : List Visit) (visitor : Visitor) :
    RouteState × List (Visit × UnassignedReason) :=
  let route : RouteState :=
    { visitor := visitor, visits := pinned, estimated_windows := [], total_travel_time := 0 }
  if route.visits.isEmpty then (route, [])
  else
    match compute_schedule service_date route availability matrix coord_index wt rp with
    | some (windows, cost) =>
      ({ route with estimated_windows := windows, total_travel_time := cost }, [])
    | none =>
      ({ route with visits := [] }, route.visits.map fun v => (v, .noFeasibleWindow))

/-- The route-seeding loop of `solve`: one route per visitor, in input order. -/
def seed_routes (service_date : Int) (availability : AvailFn)
    (matrix : List (List Int)) (coord_index : List ((Int × Int) × Nat))
    (wt rp : Int) (visits : List Visit) :
    List Visitor → List RouteState × List (Visit × UnassignedReason)
  | [] => ([], [])
  | visitor :: rest =>
    let (route, dropped) := seed_route service_date availability matrix coord_index wt rp
      (pinned_for service_date visits visitor.id) visitor
    let (routes, dropped') :=
      seed_routes service_date availability matrix coord_index wt rp visits rest
    (route :: routes, dropped ++ dropped')

/-! ### Cheapest insertion of free visits -/

/-- Per-route evaluation result, as produced inside the `par_iter` closure:
`(route_index, best_pos/best_schedule, is_available)`, with position,
windows and cost packed together (they are `Some` together in the source). -/
structure RouteEval where
  route_index : Nat
  best : Option (Nat × (List (Int × Int) × Int))
  is_available : Bool
  deriving DecidableEq, Repr

/-- The `candidate_route` built for one insertion position inside the
per-route evaluation closure of `solve`. -/
def insertion_candidate (visit : Visit) (route : RouteState) (position : Nat) :
    RouteState :=
  { visitor := route.visitor, visits := route.visits.insertIdx position visit,
    estimated_windows := [], total_travel_time := 0 }

/-- One iteration of the `for position in 0..=route.visits.len()` loop body:
first strict improvement is kept, so the earliest position among minimal
costs wins.  (The Rust sentinel `best_cost = i32::MAX` with `<` is modelled
by the `Option` accumulator.) -/
def insertion_best_step (service_date : Int) (availability : AvailFn)
    (matrix : List (List Int)) (coord_index : List ((Int × Int) × Nat))
    (wt rp : Int) (visit : Visit) (route : RouteState)
    (best : Option (Nat × (List (Int × Int) × Int))) (position : Nat) :
    Option (Nat × (List (Int × Int) × Int)) :=
  match compute_schedule service_date (insertion_candidate visit route position)
      availability matrix coord_index wt rp with
  | some schedule =>
    match best with
    | none => some (position, schedule)
    | some b => if schedule.2 < b.2.2 then some (position, schedule) else some b
  | none => best

/-- The whole inner position loop, as a fold of `insertion_best_step`. -/
def best_position_fold (service_date : Int) (availability : AvailFn)
    (matrix : List (List Int)) (coord_index : List ((Int × Int) × Nat))
    (wt rp : Int) (visit : Visit) (route : RouteState) :
    List Nat → Option (Nat × (List (Int × Int) × Int)) →
      Option (Nat × (List (Int × Int) × Int))
  | [], best => best
  | position :: rest, best =>
    best_position_fold service_date availability matrix coord_index wt rp visit route
      rest (insertion_best_step service_date availability matrix coord_index wt rp
        visit route best position)

/-- The body of the `routes.par_iter().enumerate().filter_map(...)` closure. -/
def evaluate_route (service_date : Int) (availability : AvailFn)
    (matrix : List (List Int)) (coord_index : List ((Int × Int) × Nat))
    (wt rp : Int) (visit : Visit) (p : Nat × RouteState) : Option RouteEval :=
  let route := p.2
  if ¬ visitor_can_do visit route.visitor then none
  else
    let is_available := (availability route.visitor.id service_date).isSome
    let best := best_position_fold service_date availability matrix coord_index wt rp
      visit route (List.range (route.visits.length + 1)) none
    some { route_index := p.1, best := best, is_available := is_available }

/-- `min_by_key(cost)` over the evaluations that found a position: Rust's
`Iterator::min_by_key` returns the **first** minimal element, and the
parallel `collect` preserves route-index order, so ties go to the lowest
route index. -/
def pick_min_step (best : Option (Nat × Nat × List (Int × Int) × Int))
    (e : Nat × Nat × List (Int × Int) × Int) :
    Option (Nat × Nat × List (Int × Int) × Int) :=
  match best with
  | none => some e
  | some b => if e.2.2.2 < b.2.2.2 then some e else some b

def pick_min (l : List (Nat × Nat × List (Int × Int) × Int)) :
    Option (Nat × Nat × List (Int × Int) × Int) :=
  l.foldl pick_min_step none

/-- The `(route_index, best_pos, best_schedule)` entries that found a
position, in route-index order (the parallel `collect` preserves the
enumeration order). -/
def insertion_entries (service_date : Int) (availability : AvailFn)
    (matrix : List (List Int)) (coord_index : List ((Int × Int) × Nat))
    (wt rp : Int) (visit : Visit) (routes : List RouteState) :
    List (Nat × Nat × List (Int × Int) × Int) :=
  (routes.enum.filterMap
      (evaluate_route service_date availability matrix coord_index wt rp visit)).filterMap
    fun e => e.best.map fun b => (e.route_index, b.1, b.2.1, b.2.2)

/-- The reduction of the per-visit insertion search of `solve`: evaluate every
route, keep the entries that found a position, and take the first minimum by
cost — the committed `(route_index, position, windows, cost)`. -/
def insertion_choice (service_date : Int) (availability : AvailFn)
    (matrix : List (List Int)) (coord_index : List ((Int × Int) × Nat))
    (wt rp : Int) (visit : Visit) (routes : List RouteState) :
    Option (Nat × Nat × List (Int × Int) × Int) :=
  pick_min (insertion_entries service_date availability matrix coord_index wt rp visit routes)

/-- Replace the route at index `i` (Rust `routes[route_index] = ...` effect). -/
def modify_at : List RouteState → Nat → (RouteState → RouteState) → List RouteState
  | [], _, _ => []
  | r :: rs, 0, f => f r :: rs
  | r :: rs, n + 1, f => r :: modify_at rs n f

/-- One iteration of the `for visit in to_assign` loop of `solve`. -/
def assign_free_visit (service_date : Int) (availability : AvailFn)
    (matrix : List (List Int)) (coord_index : List ((Int × Int) × Nat))
    (wt rp : Int) (visitors : List Visitor)
    (state : List RouteState × List (Visit × UnassignedReason)) (visit : Visit) :
    List RouteState × List (Visit × UnassignedReason) :=
  let routes := state.1
  let unassigned := state.2
  if ¬ visit_is_compatible visit visitors then
    (routes, unassigned ++ [(visit, .noCapableVisitor)])
  else
    let route_evaluations := routes.enum.filterMap
      (evaluate_route service_date availability matrix coord_index wt rp visit)
    let found_capable_available_visitor := route_evaluations.any (·.is_available)
    match insertion_choice service_date availability matrix coord_index wt rp visit routes with
    | some (route_index, best_position, windows, cost) =>
      (modify_at routes route_index fun route =>
        { route with
          visits := route.visits.insertIdx best_position visit
          estimated_windows := windows
          total_travel_time := cost },
       unassigned)
    | none =>
      let reason := if found_capable_available_visitor then
          UnassignedReason.noFeasibleWindow
        else UnassignedReason.noCapableVisitor
      (routes, unassigned ++ [(visit, reason)])

/-- The whole `for visit in to_assign` loop. -/
def assign_all (service_date : Int) (availability : AvailFn)
    (matrix : List (List Int)) (coord_index : List ((Int × Int) × Nat))
    (wt rp : Int) (visitors : List Visitor) (free : List Visit)
    (state : List RouteState × List (Visit × UnassignedReason)) :
    List RouteState × List (Visit × UnassignedReason) :=
  free.foldl (assign_free_visit service_date availability matrix coord_index wt rp visitors)
    state

/-! ### Local search -/

/-- The `(i, j)` pairs visited by the 2-opt double loop:
`i ∈ [0, n-2]`, `j ∈ [i+2, n-1]`, in loop order. -/
def two_opt_pairs (n : Nat) : List (Nat × Nat) :=
  (List.range (n - 1)).flatMap fun i =>
    (List.range' (i + 2) (n - (i + 2))).map fun j => (i, j)

/-- Reverse the segment `[i+1 ..= j]` of a list (Rust `l[i+1..=j].reverse()`). -/
def reverse_segment (l : List Visit) (i j : Nat) : List Visit :=
  l.take (i + 1) ++ ((l.drop (i + 1)).take (j - i)).reverse ++ l.drop (j + 1)

/-- `two_opt_improve` from solver.rs: first strictly improving segment
reversal is committed; `none` means no improvement was made. -/
def two_opt_improve (service_date : Int) (availability : AvailFn)
    (matrix : List (List Int)) (coord_index : List ((Int × Int) × Nat))
    (wt rp : Int) (route : RouteState) : Option RouteState :=
  if route.visits.length < 3 then none
  else
    let current_cost := route.total_travel_time
    (two_opt_pairs route.visits.length).findSome? fun p =>
      let candidate := reverse_segment route.visits p.1 p.2
      let candidate_route : RouteState :=
        { visitor := route.visitor, visits := candidate,
          estimated_windows := [], total_travel_time := 0 }
      match compute_schedule service_date candidate_route availability matrix
          coord_index wt rp with
      | some (windows, cost) =>
        if cost < current_cost then
          some { route with
            visits := candidate
            estimated_windows := windows
            total_travel_time := cost }
        else none
      | none => none

/-- The `for route in routes.iter_mut()` 2-opt sweep of `local_search`:
each route is improved (at most once) in place; the flag records whether
any route improved. -/
def two_opt_pass (service_date : Int) (availability : AvailFn)
    (matrix : List (List Int)) (coord_index : List ((Int × Int) × Nat))
    (wt rp : Int) : List RouteState → List RouteState × Bool
  | [] => ([], false)
  | route :: rest =>
    let tail := two_opt_pass service_date availability matrix coord_index wt rp rest
    match two_opt_improve service_date availability matrix coord_index wt rp route with
    | some route' => (route' :: tail.1, true)
    | none => (route :: tail.1, tail.2)

/-- The `(from_route_idx, visit_idx, to_route_idx, insert_pos)` tuples that
survive every guard (`continue`) of the relocate loops, in loop order:
empty from-routes are skipped, pinned visits may not change route, same-route
moves draw `insert_pos` from `0..to_route_len` and skip `visit_idx` and
`visit_idx + 1`, cross-route moves draw from `0..=to_route_len`, and the
target route's visitor must cover the visit's required capabilities. -/
def relocate_candidates (routes : List RouteState) : List (Nat × Nat × Nat × Nat) :=
  (List.range routes.length).flatMap fun from_route_idx =>
    match routes.get? from_route_idx with
    | none => []
    | some from_route =>
      (List.range from_route.visits.length).flatMap fun visit_idx =>
        match from_route.visits.get? visit_idx with
        | none => []
        | some visit =>
          let is_pinned_to_visitor :=
            visit.pin_type == .visitor || visit.pin_type == .visitorAndDate
          (List.range routes.length).flatMap fun to_route_idx =>
            if is_pinned_to_visitor ∧ to_route_idx ≠ from_route_idx then []
            else
              match routes.get? to_route_idx with
              | none => []
              | some to_route =>
                let insert_positions :=
                  if from_route_idx = to_route_idx then to_route.visits.length
                  else to_route.visits.length + 1
                (List.range insert_positions).filterMap fun insert_pos =>
                  if from_route_idx = to_route_idx ∧
                      (insert_pos = visit_idx ∨ insert_pos = visit_idx + 1) then none
                  else
                    let required := visit.required_capabilities
                    if ¬ required.isEmpty ∧
                        ¬ (required.all fun cap => to_route.visitor.capabilities.contains cap) then
                      none
                    else some (from_route_idx, visit_idx, to_route_idx, insert_pos)

/-- The `actual_insert_pos` computed by the relocate loop body: for a
same-route move past the removed index, the insertion position shifts left
by one. -/
def relocate_actual_pos (from_route_idx to_route_idx visit_idx insert_pos : Nat) :
    Nat :=
  if from_route_idx = to_route_idx ∧ insert_pos > visit_idx then insert_pos - 1
  else insert_pos

/-- Evaluation and (conditional) commit of one relocate candidate: mirrors
the loop body of `relocate_improve` after the guards; `none` means the move
was not committed (infeasible or not strictly improving). -/
def relocate_apply (service_date : Int) (availability : AvailFn)
    (matrix : List (List Int)) (coord_index : List ((Int × Int) × Nat))
    (wt rp : Int) (routes : List RouteState) (total_cost : Int)
    (c : Nat × Nat × Nat × Nat) : Option (List RouteState) :=
  match routes.get? c.1, routes.get? c.2.2.1 with
  | some from_route, some to_route =>
    match from_route.visits.get? c.2.1 with
    | none => none
    | some visit =>
      let from_route_idx := c.1
      let visit_idx := c.2.1
      let to_route_idx := c.2.2.1
      let insert_pos := c.2.2.2
      let from_candidate := from_route.visits.eraseIdx visit_idx
      let actual_insert_pos :=
        relocate_actual_pos from_route_idx to_route_idx visit_idx insert_pos
      let to_candidate :=
        (if from_route_idx = to_route_idx then from_candidate
         else to_route.visits).insertIdx actual_insert_pos visit
      let from_route_state : RouteState :=
        { visitor := from_route.visitor
          visits := if from_route_idx = to_route_idx then to_candidate else from_candidate
          estimated_windows := []
          total_travel_time := 0 }
      match compute_schedule service_date from_route_state availability matrix
          coord_index wt rp with
      | none => none
      | some (from_windows, from_cost) =>
        if from_route_idx = to_route_idx then
          let other_cost : Int :=
            ((routes.enum.filter fun p => p.1 ≠ from_route_idx).map
              fun p => p.2.total_travel_time).sum
          if from_cost + other_cost < total_cost then
            some (modify_at routes from_route_idx fun route =>
              { route with
                visits := to_candidate
                estimated_windows := from_windows
                total_travel_time := from_cost })
          else none
        else
          let to_route_state : RouteState :=
            { visitor := to_route.visitor
              visits := to_candidate
              estimated_windows := []
              total_travel_time := 0 }
          match compute_schedule service_date to_route_state availability matrix
              coord_index wt rp with
          | none => none
          | some (to_windows, to_cost) =>
            let other_cost : Int :=
              ((routes.enum.filter fun p =>
                  p.1 ≠ from_route_idx ∧ p.1 ≠ to_route_idx).map
                fun p => p.2.total_travel_time).sum
            if from_cost + to_cost + other_cost < total_cost then
              some (modify_at
                (modify_at routes from_route_idx fun route =>
                  { route with
                    visits := route.visits.eraseIdx visit_idx
                    estimated_windows := from_windows
                    total_travel_time := from_cost })
                to_route_idx fun route =>
                  { route with
                    visits := route.visits.insertIdx insert_pos visit
                    estimated_windows := to_windows
                    total_travel_time := to_cost })
            else none
  | _, _ => none

/-- `relocate_improve` from solver.rs: the first candidate move that passes
its guards, is feasible and strictly decreases the global cost is committed. -/
def relocate_improve (service_date : Int) (availability : AvailFn)
    (matrix : List (List Int)) (coord_index : List ((Int × Int) × Nat))
    (wt rp : Int) (routes : List RouteState) : Option (List RouteState) :=
  let total_cost := (routes.map RouteState.total_travel_time).sum
  (relocate_candidates routes).findSome?
    (relocate_apply service_date availability matrix coord_index wt rp routes total_cost)

/-- `local_search` from solver.rs: up to `local_search_iterations` passes of
a 2-opt sweep followed by one relocate commit; stop early when a pass makes
no improvement. -/
def local_search (service_date : Int) (availability : AvailFn)
    (matrix : List (List Int)) (coord_index : List ((Int × Int) × Nat))
    (wt rp : Int) : Nat → List RouteState → List RouteState
  | 0, routes => routes
  | n + 1, routes =>
    let pass := two_opt_pass service_date availability matrix coord_index wt rp routes
    match relocate_improve service_date availability matrix coord_index wt rp pass.1 with
    | some routes' =>
      local_search service_date availability matrix coord_index wt rp n routes'
    | none =>
      if pass.2 then
        local_search service_date availability matrix coord_index wt rp n pass.1
      else pass.1

/-! ### The solve driver -/

/-- The assignment phase of `solve` (classification, matrix, seeding,
cheapest insertion), before local search. -/
def construct (service_date : Int) (visits : List Visit) (visitors : List Visitor)
    (availability : AvailFn) (matrix_provider : MatrixFn) (options : SolveOptions) :
    List RouteState × List (Visit × UnassignedReason) :=
  let wt := options.target_time_weight
  let rp := options.reassignment_penalty
  let locations := collect_locations visits visitors
  let matrix := matrix_provider locations
  let coord_index := build_coord_index locations
  let seeded := seed_routes service_date availability matrix coord_index wt rp visits visitors
  assign_all service_date availability matrix coord_index wt rp visitors
    (to_assign service_date visits)
    (seeded.1, initial_unassigned service_date visits ++ seeded.2)

/-- `solve` up to (and including) local search, before projection to the
result type: the internal route states and the `(visit, reason)` pairs. -/
def solveInternal (service_date : Int) (visits : List Visit) (visitors : List Visitor)
    (availability : AvailFn) (matrix_provider : MatrixFn) (options : SolveOptions) :
    List RouteState × List (Visit × UnassignedReason) :=
  let built := construct service_date visits visitors availability matrix_provider options
  let locations := collect_locations visits visitors
  (local_search service_date availability (matrix_provider locations)
      (build_coord_index locations) options.target_time_weight
      options.reassignment_penalty options.local_search_iterations built.1,
   built.2)

/-- The final projection of `solve` to `PlannerResult`. -/
def project_result (state : List RouteState × List (Visit × UnassignedReason)) :
    PlannerResult :=
  { routes := state.1.map fun route =>
      { visitor_id := route.visitor.id
        visit_ids := route.visits.map Visit.id
        estimated_windows := route.estimated_windows
        total_travel_time := route.total_travel_time }
    unassigned := state.2.map fun p =>
      { visit_id := p.1.id, reason := p.2 } }

/-- `solve` from solver.rs. -/
def solve (service_date : Int) (visits : List Visit) (visitors : List Visitor)
    (availability : AvailFn) (matrix_provider : MatrixFn) (options : SolveOptions) :
    PlannerResult :=
  project_result
    (solveInternal service_date visits visitors availability matrix_provider options)

/-! ### Scheduler lemmas -/

/-- All entries of the duration matrix are non-negative. -/
def MatrixNonneg (matrix : List (List Int)) : Prop :=
  ∀ row ∈ matrix, ∀ x ∈ row, 0 ≤ x

/-- The diagonal of the duration matrix is zero (stated through the
defaulting accessor the embedding uses). -/
def MatrixDiagZero (matrix : List (List Int)) : Prop :=
  ∀ i, i < matrix.length → ((matrix.getD i []).getD i 0) = 0

theorem travel_time_fast_nonneg (f t : Coord) (matrix : List (List Int))
    (ci : List ((Int × Int) × Nat)) (hm : MatrixNonneg matrix) :
    0 ≤ travel_time_fast f t matrix ci := by
  unfold travel_time_fast
  set i := ((ci.lookup (coord_to_int_key f)).getD 0) with hi
  set j := ((ci.lookup (coord_to_int_key t)).getD 0) with hj
  rcases h : matrix[i]? with _ | row
  · simp [List.getD, h]
  · have hrow : row ∈ matrix := List.getElem?_mem h
    rcases h2 : row[j]? with _ | x
    · simp [List.getD, h, h2]
    · have hx : x ∈ row := List.getElem?_mem h2
      have := hm row hrow x hx
      simp [List.getD, h, h2, this]

theorem find_fitting_aux_spec (e d : Int) (cw : Option (Int × Int)) :
    ∀ (ws : List (Int × Int)) (idx : Nat) (s : Int) (k : Nat),
      find_fitting_aux e d cw ws idx = some (s, k) →
      ∃ seg, ws[k - idx]? = some seg ∧ idx ≤ k ∧ e ≤ s ∧ seg.1 ≤ s ∧ s + d ≤ seg.2 ∧
        (∀ cs ce, cw = some (cs, ce) → cs ≤ s ∧ s ≤ ce ∧ s + d ≤ ce)
  | [], idx, s, k => by simp [find_fitting_aux]
  | (ws_, we) :: rest, idx, s, k => by
    intro h
    simp only [find_fitting_aux] at h
    rcases cw with _ | ⟨cs, ce⟩
    · simp only at h
      split at h
      · rename_i hfit
        simp only [Option.some.injEq, Prod.mk.injEq] at h
        obtain ⟨rfl, rfl⟩ := h
        exact ⟨(ws_, we), by simp, le_refl _, le_max_left _ _, le_max_right _ _, hfit, by simp⟩
      · obtain ⟨seg, hseg, hik, he, h1, h2, _⟩ :=
          find_fitting_aux_spec e d none rest (idx + 1) s k h
        refine ⟨seg, ?_, by omega, he, h1, h2, by simp⟩
        have : k - idx = (k - (idx + 1)) + 1 := by omega
        rw [this]
        simpa using hseg
    · simp only at h
      split at h
      · exact absurd h (by simp)
      · split at h
        · obtain ⟨seg, hseg, hik, he, h1, h2, h3⟩ :=
            find_fitting_aux_spec e d (some (cs, ce)) rest (idx + 1) s k h
          refine ⟨seg, ?_, by omega, he, h1, h2, h3⟩
          have : k - idx = (k - (idx + 1)) + 1 := by omega
          rw [this]
          simpa using hseg
        · split at h
          · rename_i hfit
            simp only [Option.some.injEq, Prod.mk.injEq] at h
            obtain ⟨rfl, rfl⟩ := h
            refine ⟨(ws_, we), by simp, le_refl _, ?_, ?_, hfit.1, ?_⟩
            · exact le_trans (le_max_left _ _) (le_max_left _ _)
            · exact le_trans (le_max_right _ _) (le_max_left _ _)
            · intro cs' ce' hcw
              simp only [Option.some.injEq, Prod.mk.injEq] at hcw
              obtain ⟨rfl, rfl⟩ := hcw
              exact ⟨le_max_right _ _, hfit.2.1, hfit.2.2⟩
          · obtain ⟨seg, hseg, hik, he, h1, h2, h3⟩ :=
              find_fitting_aux_spec e d (some (cs, ce)) rest (idx + 1) s k h
            refine ⟨seg, ?_, by omega, he, h1, h2, h3⟩
            have : k - idx = (k - (idx + 1)) + 1 := by omega
            rw [this]
            simpa using hseg

theorem find_fitting_window_spec (e d : Int) (wi : Nat) (aw : List (Int × Int))
    (cw : Option (Int × Int)) (s : Int) (k : Nat)
    (h : find_fitting_window e d wi aw cw = some (s, k)) :
    ∃ seg, aw[k]? = some seg ∧ e ≤ s ∧ seg.1 ≤ s ∧ s + d ≤ seg.2 ∧
      (∀ cs ce, cw = some (cs, ce) → cs ≤ s ∧ s ≤ ce ∧ s + d ≤ ce) := by
  obtain ⟨seg, hseg, hik, rest⟩ := find_fitting_aux_spec e d cw (aw.drop wi) wi s k h
  refine ⟨seg, ?_, rest⟩
  rw [List.getElem?_drop] at hseg
  rwa [Nat.add_sub_cancel' hik] at hseg

/-- Workhorse lemma: everything `schedule_visits` guarantees about the windows
it returns — length, per-visit window arithmetic, availability containment
and committed-window containment unconditionally; monotone starts and
chained non-overlap under non-negative travel times and positive durations. -/
theorem schedule_visits_spec (aw : List (Int × Int)) (matrix : List (List Int))
    (ci : List ((Int × Int) × Nat)) (wt rp : Int) (vid : Nat) :
    ∀ (vs : List Visit) (t : Int) (wi : Nat) (prev : Coord)
      (ws : List (Int × Int)) (c : Int),
      schedule_visits aw matrix ci wt rp vid vs t wi prev = some (ws, c) →
      ws.length = vs.length ∧
      (MatrixNonneg matrix → (∀ v ∈ vs, 0 < v.estimated_duration_minutes) →
        (∀ w ∈ ws, t ≤ w.1) ∧ List.Chain' (fun w w' => w.2 ≤ w'.1) ws) ∧
      ∀ (k : Nat) (v : Visit) (w : Int × Int), vs[k]? = some v → ws[k]? = some w →
        w.2 = w.1 + v.estimated_duration_minutes * 60 ∧
        (∃ seg ∈ aw, seg.1 ≤ w.1 ∧ w.2 ≤ seg.2) ∧
        (∀ cs ce, v.committed_window = some (cs, ce) → cs ≤ w.1 ∧ w.1 ≤ ce ∧ w.2 ≤ ce) := by
  intro vs
  induction vs with
  | nil =>
    intro t wi prev ws c h
    simp only [schedule_visits, Option.some.injEq, Prod.mk.injEq] at h
    obtain ⟨rfl, rfl⟩ := h
    simp
  | cons visit rest ih =>
    intro t wi prev ws c h
    simp only [schedule_visits] at h
    -- reduce the committed-window clamp to `some t1` with `t + travel ≤ t1`
    have main : ∀ (t1 : Int),
        t + travel_time_fast prev visit.location matrix ci ≤ t1 →
        (match find_fitting_window t1 (visit.estimated_duration_minutes * 60) wi aw
            visit.committed_window with
         | none => none
         | some (start_time, window_idx) =>
           match schedule_visits aw matrix ci wt rp vid rest
               (start_time + visit.estimated_duration_minutes * 60) window_idx
               visit.location with
           | none => none
           | some (result_windows, cost_rest) =>
             some ((start_time, start_time + visit.estimated_duration_minutes * 60)
                 :: result_windows,
               travel_time_fast prev visit.location matrix ci +
                 (match visit.target_time with
                  | some target => |start_time - target| * wt
                  | none => 0) +
                 (match visit.current_visitor_id with
                  | some current_visitor => if current_visitor ≠ vid then rp else 0
                  | none => 0) + cost_rest)) = some (ws, c) →
        ws.length = (visit :: rest).length ∧
        (MatrixNonneg matrix → (∀ v ∈ visit :: rest, 0 < v.estimated_duration_minutes) →
          (∀ w ∈ ws, t ≤ w.1) ∧ List.Chain' (fun w w' => w.2 ≤ w'.1) ws) ∧
        ∀ (k : Nat) (v : Visit) (w : Int × Int), (visit :: rest)[k]? = some v → ws[k]? = some w →
          w.2 = w.1 + v.estimated_duration_minutes * 60 ∧
          (∃ seg ∈ aw, seg.1 ≤ w.1 ∧ w.2 ≤ seg.2) ∧
          (∀ cs ce, v.committed_window = some (cs, ce) → cs ≤ w.1 ∧ w.1 ≤ ce ∧ w.2 ≤ ce) := by
      intro t1 ht1 hmatch
      split at hmatch
      · exact absurd hmatch (by simp)
      rename_i s kidx hffw
      split at hmatch
      · exact absurd hmatch (by simp)
      rename_i wsr cr hrec
      simp only [Option.some.injEq, Prod.mk.injEq] at hmatch
      obtain ⟨rfl, rfl⟩ := hmatch
      obtain ⟨hlen, hcond, hidx⟩ := ih _ _ _ _ _ hrec
      obtain ⟨seg, hseg, hes, hsegs, hsege, hcomm⟩ :=
        find_fitting_window_spec _ _ _ _ _ _ _ hffw
      refine ⟨by simpa using hlen, ?_, ?_⟩
      · intro hm hd
        have htr : 0 ≤ travel_time_fast prev visit.location matrix ci :=
          travel_time_fast_nonneg _ _ _ _ hm
        have hdv : 0 < visit.estimated_duration_minutes := hd visit (by simp)
        have hdrest : ∀ v ∈ rest, 0 < v.estimated_duration_minutes :=
          fun v hv => hd v (by simp [hv])
        obtain ⟨hmono, hchain⟩ := hcond hm hdrest
        have hts : t ≤ s := le_trans (by omega) hes
        constructor
        · intro w hw
          rcases List.mem_cons.mp hw with rfl | hw
          · exact hts
          · exact le_trans (by omega) (hmono w hw)
        · refine List.chain'_cons'.mpr ⟨?_, hchain⟩
          intro w hw
          have := hcond hm hdrest
          exact le_trans (by omega) (this.1 w (List.mem_of_mem_head? hw))
      · intro k v w hv hw
        match k with
        | 0 =>
          simp only [List.getElem?_cons_zero, Option.some.injEq] at hv hw
          subst hv
          subst hw
          refine ⟨rfl, ⟨seg, List.getElem?_mem hseg, hsegs, hsege⟩, ?_⟩
          intro cs ce hcw
          obtain ⟨h1, h2, h3⟩ := hcomm cs ce hcw
          exact ⟨h1, h2, h3⟩
        | k + 1 =>
          simp only [List.getElem?_cons_succ] at hv hw
          exact hidx k v w hv hw
    split at h
    · exact absurd h (by simp)
    rename_i t1 hco
    have ht1 : t + travel_time_fast prev visit.location matrix ci ≤ t1 := by
      repeat' split at hco
      all_goals try exact Option.noConfusion hco
      all_goals injection hco with hco
      all_goals omega
    exact main t1 ht1 h

/-- `compute_schedule` guarantees, at the route level (monotone conjuncts
under the matrix/duration preconditions). -/
theorem compute_schedule_spec (sd : Int) (r : RouteState) (av : AvailFn)
    (matrix : List (List Int)) (ci : List ((Int × Int) × Nat)) (wt rp : Int)
    (hm : MatrixNonneg matrix)
    (hd : ∀ v ∈ r.visits, 0 < v.estimated_duration_minutes)
    (ws : List (Int × Int)) (c : Int)
    (h : compute_schedule sd r av matrix ci wt rp = some (ws, c)) :
    ∃ aw, av r.visitor.id sd = some aw ∧
      ws.length = r.visits.length ∧
      List.Chain' (fun w w' => w.2 ≤ w'.1) ws ∧
      ∀ (k : Nat) (v : Visit) (w : Int × Int),
        r.visits[k]? = some v → ws[k]? = some w →
          w.2 = w.1 + v.estimated_duration_minutes * 60 ∧
          (∃ seg ∈ aw, seg.1 ≤ w.1 ∧ w.2 ≤ seg.2) ∧
          (∀ cs ce, v.committed_window = some (cs, ce) →
            cs ≤ w.1 ∧ w.1 ≤ ce ∧ w.2 ≤ ce) := by
  unfold compute_schedule at h
  rcases hav : av r.visitor.id sd with _ | aw
  · simp only [hav] at h
    exact Option.noConfusion h
  simp only [hav] at h
  by_cases hemp : aw = []
  · rw [if_pos hemp] at h; exact absurd h (by simp)
  rw [if_neg hemp] at h
  obtain ⟨h1, hcond, h4⟩ := schedule_visits_spec aw matrix ci wt rp r.visitor.id
    r.visits _ _ _ _ _ h
  exact ⟨aw, rfl, h1, (hcond hm hd).2, h4⟩

/-- `compute_schedule` guarantees that need no preconditions: window length,
window arithmetic and committed-window containment. -/
theorem compute_schedule_committed (sd : Int) (r : RouteState) (av : AvailFn)
    (matrix : List (List Int)) (ci : List ((Int × Int) × Nat)) (wt rp : Int)
    (ws : List (Int × Int)) (c : Int)
    (h : compute_schedule sd r av matrix ci wt rp = some (ws, c)) :
    ws.length = r.visits.length ∧
    ∀ (k : Nat) (v : Visit) (w : Int × Int),
      r.visits[k]? = some v → ws[k]? = some w →
        w.2 = w.1 + v.estimated_duration_minutes * 60 ∧
        (∀ cs ce, v.committed_window = some (cs, ce) →
          cs ≤ w.1 ∧ w.1 ≤ ce ∧ w.2 ≤ ce) := by
  unfold compute_schedule at h
  rcases hav : av r.visitor.id sd with _ | aw
  · simp only [hav] at h
    exact Option.noConfusion h
  simp only [hav] at h
  by_cases hemp : aw = []
  · rw [if_pos hemp] at h; exact absurd h (by simp)
  rw [if_neg hemp] at h
  obtain ⟨h1, _, h4⟩ := schedule_visits_spec aw matrix ci wt rp r.visitor.id
    r.visits _ _ _ _ _ h
  refine ⟨h1, ?_⟩
  intro k v w hv hw
  obtain ⟨ha, _, hc⟩ := h4 k v w hv hw
  exact ⟨ha, hc⟩

/-- The invariant tying a route's stored `estimated_windows` and
`total_travel_time` to its `visits`: either the route is empty (and carries
the empty schedule), or the stored data is exactly what `compute_schedule`
returns for it. -/
def RouteOk (sd : Int) (av : AvailFn) (matrix : List (List Int))
    (ci : List ((Int × Int) × Nat)) (wt rp : Int) (r : RouteState) : Prop :=
  (r.visits = [] ∧ r.estimated_windows = [] ∧ r.total_travel_time = 0) ∨
  compute_schedule sd r av matrix ci wt rp =
    some (r.estimated_windows, r.total_travel_time)

/-- `compute_schedule` reads only the `visitor` and `visits` of the route. -/
theorem compute_schedule_congr (sd : Int) (av : AvailFn)
    (matrix : List (List Int)) (ci : List ((Int × Int) × Nat)) (wt rp : Int)
    (r r' : RouteState) (h1 : r.visitor = r'.visitor) (h2 : r.visits = r'.visits) :
    compute_schedule sd r av matrix ci wt rp =
      compute_schedule sd r' av matrix ci wt rp := by
  unfold compute_schedule
  rw [h1, h2]

/-! ### First-minimum fold lemmas (cheapest insertion) -/

/-- Specification of a first-minimum-by-cost search over a domain of
insertion positions: either no position in the domain is feasible, or the
result is a feasible position of minimal cost, earliest among ties. -/
def BestOver (f : Nat → Option (List (Int × Int) × Int)) (dom : List Nat)
    (res : Option (Nat × (List (Int × Int) × Int))) : Prop :=
  (res = none ∧ ∀ q ∈ dom, f q = none) ∨
  (∃ p sch, res = some (p, sch) ∧ p ∈ dom ∧ f p = some sch ∧
    ∀ q ∈ dom, ∀ s, f q = some s → sch.2 ≤ s.2 ∧ (s.2 = sch.2 → p ≤ q))

theorem best_position_fold_spec (sd : Int) (av : AvailFn)
    (matrix : List (List Int)) (ci : List ((Int × Int) × Nat)) (wt rp : Int)
    (visit : Visit) (route : RouteState) :
    ∀ (ps processed : List Nat) (acc : Option (Nat × (List (Int × Int) × Int))),
      (∀ q' ∈ processed, ∀ q ∈ ps, q' < q) →
      List.Pairwise (· < ·) ps →
      BestOver (fun p => compute_schedule sd (insertion_candidate visit route p)
        av matrix ci wt rp) processed acc →
      BestOver (fun p => compute_schedule sd (insertion_candidate visit route p)
          av matrix ci wt rp)
        (processed ++ ps) (best_position_fold sd av matrix ci wt rp visit route ps acc) := by
  intro ps
  induction ps with
  | nil =>
    intro processed acc _ _ hacc
    simpa [best_position_fold] using hacc
  | cons q0 rest ihp =>
    intro processed acc hlt hsort hacc
    simp only [best_position_fold]
    have hq0rest : ∀ q ∈ rest, q0 < q := by
      intro q hq
      exact (List.pairwise_cons.mp hsort).1 q hq
    have step : BestOver (fun p => compute_schedule sd (insertion_candidate visit route p)
        av matrix ci wt rp) (processed ++ [q0])
        (insertion_best_step sd av matrix ci wt rp visit route acc q0) := by
      unfold insertion_best_step
      rcases hf : compute_schedule sd (insertion_candidate visit route q0)
          av matrix ci wt rp with _ | sch0
      · simp only [hf]
        rcases hacc with ⟨hr, hall⟩ | ⟨p, sch, hr, hp, hfp, hmin⟩
        · exact Or.inl ⟨hr, by
            intro q hq
            rcases List.mem_append.mp hq with hq | hq
            · exact hall q hq
            · simp only [List.mem_singleton] at hq
              subst hq
              exact hf⟩
        · refine Or.inr ⟨p, sch, hr, List.mem_append_left _ hp, hfp, ?_⟩
          intro q hq s hs
          rcases List.mem_append.mp hq with hq | hq
          · exact hmin q hq s hs
          · simp only [List.mem_singleton] at hq
            subst hq
            simp only [hf] at hs
            exact Option.noConfusion hs
      · simp only [hf]
        rcases hacc with ⟨hr, hall⟩ | ⟨p, sch, hr, hp, hfp, hmin⟩
        · subst hr
          simp only []
          refine Or.inr ⟨q0, sch0, rfl, List.mem_append_right _ (by simp), hf, ?_⟩
          intro q hq s hs
          rcases List.mem_append.mp hq with hq | hq
          · simp only [hall q hq] at hs
            exact Option.noConfusion hs
          · simp only [List.mem_singleton] at hq
            subst hq
            simp only [hf, Option.some.injEq] at hs
            subst hs
            exact ⟨le_refl _, fun _ => le_refl _⟩
        · subst hr
          simp only []
          by_cases hcmp : sch0.2 < sch.2
          · rw [if_pos hcmp]
            refine Or.inr ⟨q0, sch0, rfl, List.mem_append_right _ (by simp), hf, ?_⟩
            intro q hq s hs
            rcases List.mem_append.mp hq with hq | hq
            · have := hmin q hq s hs
              exact ⟨le_trans (le_of_lt hcmp) this.1, fun he => absurd he (by omega)⟩
            · simp only [List.mem_singleton] at hq
              subst hq
              simp only [hf, Option.some.injEq] at hs
              subst hs
              exact ⟨le_refl _, fun _ => le_refl _⟩
          · rw [if_neg hcmp]
            refine Or.inr ⟨p, sch, rfl, List.mem_append_left _ hp, hfp, ?_⟩
            intro q hq s hs
            rcases List.mem_append.mp hq with hq | hq
            · exact hmin q hq s hs
            · simp only [List.mem_singleton] at hq
              subst hq
              simp only [hf, Option.some.injEq] at hs
              subst hs
              refine ⟨by omega, ?_⟩
              intro _
              exact le_of_lt (hlt p hp q (by simp))
      -- end step
    have hlt' : ∀ q' ∈ processed ++ [q0], ∀ q ∈ rest, q' < q := by
      intro q' hq' q hq
      rcases List.mem_append.mp hq' with hq' | hq'
      · exact hlt q' hq' q (by simp [hq])
      · simp only [List.mem_singleton] at hq'
        subst hq'
        exact hq0rest q hq
    have := ihp (processed ++ [q0]) _ hlt' (List.pairwise_cons.mp hsort).2 step
    simpa [List.append_assoc] using this

/-- The position search of `evaluate_route` is a first-minimum over
`0..=route.visits.len()`. -/
theorem best_position_fold_range (sd : Int) (av : AvailFn)
    (matrix : List (List Int)) (ci : List ((Int × Int) × Nat)) (wt rp : Int)
    (visit : Visit) (route : RouteState) (n : Nat) :
    BestOver (fun p => compute_schedule sd (insertion_candidate visit route p)
        av matrix ci wt rp) (List.range n)
      (best_position_fold sd av matrix ci wt rp visit route (List.range n) none) := by
  have := best_position_fold_spec sd av matrix ci wt rp visit route (List.range n) [] none
    (by simp) (List.pairwise_lt_range n) (Or.inl ⟨rfl, by simp⟩)
  simpa using this

/-- Specification of `pick_min` over a list of per-route results: either the
list is empty, or the result is an element of minimal cost, with ties going
to the earlier element — hence, on an index-sorted list, to the lowest route
index. -/
def PickBest (l : List (Nat × Nat × List (Int × Int) × Int))
    (res : Option (Nat × Nat × List (Int × Int) × Int)) : Prop :=
  (res = none ∧ l = []) ∨
  (∃ b, res = some b ∧ b ∈ l ∧
    ∀ e ∈ l, b.2.2.2 ≤ e.2.2.2 ∧ (e.2.2.2 = b.2.2.2 → b.1 ≤ e.1))

theorem pick_min_foldl_spec :
    ∀ (l processed : List (Nat × Nat × List (Int × Int) × Int))
      (acc : Option (Nat × Nat × List (Int × Int) × Int)),
      (∀ e' ∈ processed, ∀ e ∈ l, e'.1 < e.1) →
      List.Pairwise (fun a b => a.1 < b.1) l →
      PickBest processed acc →
      PickBest (processed ++ l) (l.foldl pick_min_step acc)
  | [], processed, acc => by
    intro _ _ hacc
    simpa using hacc
  | e0 :: rest, processed, acc => by
    intro hlt hsort hacc
    simp only [List.foldl_cons]
    have hrest : ∀ e ∈ rest, e0.1 < e.1 := (List.pairwise_cons.mp hsort).1
    have step : PickBest (processed ++ [e0]) (pick_min_step acc e0) := by
      unfold pick_min_step
      rcases hacc with ⟨hr, hl⟩ | ⟨b, hr, hb, hmin⟩
      · subst hr hl
        refine Or.inr ⟨e0, rfl, by simp, ?_⟩
        intro e he
        simp only [List.nil_append, List.mem_singleton] at he
        subst he
        exact ⟨le_refl _, fun _ => le_refl _⟩
      · subst hr
        simp only []
        by_cases hcmp : e0.2.2.2 < b.2.2.2
        · rw [if_pos hcmp]
          refine Or.inr ⟨e0, rfl, List.mem_append_right _ (by simp), ?_⟩
          intro e he
          rcases List.mem_append.mp he with he | he
          · have := hmin e he
            exact ⟨le_trans (le_of_lt hcmp) this.1, fun hc => absurd hc (by omega)⟩
          · simp only [List.mem_singleton] at he
            subst he
            exact ⟨le_refl _, fun _ => le_refl _⟩
        · rw [if_neg hcmp]
          refine Or.inr ⟨b, rfl, List.mem_append_left _ hb, ?_⟩
          intro e he
          rcases List.mem_append.mp he with he | he
          · exact hmin e he
          · simp only [List.mem_singleton] at he
            subst he
            refine ⟨by omega, fun _ => ?_⟩
            exact le_of_lt (hlt b hb e (by simp))
    have hlt' : ∀ e' ∈ processed ++ [e0], ∀ e ∈ rest, e'.1 < e.1 := by
      intro e' he' e he
      rcases List.mem_append.mp he' with he' | he'
      · exact hlt e' he' e (by simp [he])
      · simp only [List.mem_singleton] at he'
        subst he'
        exact hrest e he
    have := pick_min_foldl_spec rest (processed ++ [e0]) _ hlt'
      (List.pairwise_cons.mp hsort).2 step
    simpa [List.append_assoc] using this

theorem pick_min_spec (l : List (Nat × Nat × List (Int × Int) × Int))
    (hsort : List.Pairwise (fun a b => a.1 < b.1) l) :
    PickBest l (pick_min l) := by
  have := pick_min_foldl_spec l [] none (by simp) hsort (Or.inl ⟨rfl, rfl⟩)
  simpa [pick_min] using this

theorem evaluate_route_eq_some (sd : Int) (av : AvailFn)
    (matrix : List (List Int)) (ci : List ((Int × Int) × Nat)) (wt rp : Int)
    (visit : Visit) (i : Nat) (r : RouteState) (e : RouteEval) :
    evaluate_route sd av matrix ci wt rp visit (i, r) = some e ↔
      visitor_can_do visit r.visitor = true ∧
      e = { route_index := i,
            best := best_position_fold sd av matrix ci wt rp visit r
              (List.range (r.visits.length + 1)) none,
            is_available := (av r.visitor.id sd).isSome } := by
  unfold evaluate_route
  by_cases hc : visitor_can_do visit r.visitor
  · simp [hc, eq_comm]
  · simp [hc]

theorem mem_insertion_entries (sd : Int) (av : AvailFn)
    (matrix : List (List Int)) (ci : List ((Int × Int) × Nat)) (wt rp : Int)
    (visit : Visit) (routes : List RouteState)
    (c : Nat × Nat × List (Int × Int) × Int) :
    c ∈ insertion_entries sd av matrix ci wt rp visit routes ↔
      ∃ r, routes[c.1]? = some r ∧ visitor_can_do visit r.visitor = true ∧
        best_position_fold sd av matrix ci wt rp visit r
            (List.range (r.visits.length + 1)) none
          = some (c.2.1, (c.2.2.1, c.2.2.2)) := by
  unfold insertion_entries
  rw [List.mem_filterMap]
  constructor
  · rintro ⟨e, he, hmap⟩
    rw [List.mem_filterMap] at he
    obtain ⟨⟨i, r⟩, hir, heval⟩ := he
    obtain ⟨hc, rfl⟩ := (evaluate_route_eq_some sd av matrix ci wt rp visit i r e).mp heval
    rw [Option.map_eq_some'] at hmap
    obtain ⟨b, hb, hbc⟩ := hmap
    subst hbc
    refine ⟨r, ?_, hc, ?_⟩
    · simpa using (List.mk_mem_enum_iff_getElem?).mp hir
    · simpa using hb
  · rintro ⟨r, hr, hc, hbpf⟩
    refine ⟨{ route_index := c.1,
              best := best_position_fold sd av matrix ci wt rp visit r
                (List.range (r.visits.length + 1)) none,
              is_available := (av r.visitor.id sd).isSome }, ?_, ?_⟩
    · rw [List.mem_filterMap]
      exact ⟨(c.1, r), List.mk_mem_enum_iff_getElem?.mpr hr,
        (evaluate_route_eq_some sd av matrix ci wt rp visit c.1 r _).mpr ⟨hc, rfl⟩⟩
    · rw [hbpf]
      rfl

theorem insertion_entries_sorted (sd : Int) (av : AvailFn)
    (matrix : List (List Int)) (ci : List ((Int × Int) × Nat)) (wt rp : Int)
    (visit : Visit) (routes : List RouteState) :
    List.Pairwise (fun a b => a.1 < b.1)
      (insertion_entries sd av matrix ci wt rp visit routes) := by
  unfold insertion_entries
  have henum : List.Pairwise (fun a b => a.1 < b.1) routes.enum := by
    rw [← List.pairwise_map (f := (Prod.fst : Nat × RouteState → Nat))]
    rw [List.enum_map_fst]
    exact List.pairwise_lt_range _
  have hevals : List.Pairwise (fun e e' => e.route_index < e'.route_index)
      (routes.enum.filterMap (evaluate_route sd av matrix ci wt rp visit)) := by
    refine List.Pairwise.filterMap _ ?_ henum
    rintro ⟨i, r⟩ ⟨i', r'⟩ hlt e he e' he'
    obtain ⟨_, rfl⟩ := (evaluate_route_eq_some sd av matrix ci wt rp visit i r e).mp he
    obtain ⟨_, rfl⟩ := (evaluate_route_eq_some sd av matrix ci wt rp visit i' r' e').mp he'
    exact hlt
  refine List.Pairwise.filterMap _ ?_ hevals
  intro e e' hlt b hb b' hb'
  rw [Option.mem_def, Option.map_eq_some'] at hb hb'
  obtain ⟨x, _, rfl⟩ := hb
  obtain ⟨x', _, rfl⟩ := hb'
  exact hlt

/-- C5: For each free visit processed during construction, the committed
insertion is a capability-feasible (route, position) pair whose candidate
schedule is feasible and whose scheduled cost is minimal among all feasible
candidates (positions `0..=|route.visits|` in every capable route); on equal
cost the earliest route index, and within a route the earliest position, is
kept. -/
theorem c5_insertion_choice_optimal (sd : Int) (av : AvailFn)
    (matrix : List (List Int)) (ci : List ((Int × Int) × Nat)) (wt rp : Int)
    (visit : Visit) (routes : List RouteState) (ri pos : Nat)
    (ws : List (Int × Int)) (c : Int)
    (h : insertion_choice sd av matrix ci wt rp visit routes = some (ri, pos, ws, c)) :
    (∃ r, routes[ri]? = some r ∧ visitor_can_do visit r.visitor = true ∧
      pos < r.visits.length + 1 ∧
      compute_schedule sd (insertion_candidate visit r pos) av matrix ci wt rp
        = some (ws, c)) ∧
    (∀ (ri' pos' : Nat) (r' : RouteState) (ws' : List (Int × Int)) (c' : Int),
      routes[ri']? = some r' → visitor_can_do visit r'.visitor = true →
      pos' < r'.visits.length + 1 →
      compute_schedule sd (insertion_candidate visit r' pos') av matrix ci wt rp
        = some (ws', c') →
      c ≤ c' ∧ (c' = c → ri < ri' ∨ (ri = ri' ∧ pos ≤ pos'))) := by
  have hpick := pick_min_spec _
    (insertion_entries_sorted sd av matrix ci wt rp visit routes)
  rw [show pick_min (insertion_entries sd av matrix ci wt rp visit routes)
      = insertion_choice sd av matrix ci wt rp visit routes from rfl, h] at hpick
  rcases hpick with ⟨hnone, _⟩ | ⟨b, hb, hbmem, hbmin⟩
  · exact absurd hnone (by simp)
  simp only [Option.some.injEq] at hb
  subst hb
  obtain ⟨r, hr, hcap, hbpf⟩ :=
    (mem_insertion_entries sd av matrix ci wt rp visit routes _).mp hbmem
  simp only at hr hcap hbpf
  have hbest := best_position_fold_range sd av matrix ci wt rp visit r
    (r.visits.length + 1)
  rw [hbpf] at hbest
  rcases hbest with ⟨habs, _⟩ | ⟨p, sch, hps, hpmem, hpf, hpmin⟩
  · exact absurd habs (by simp)
  simp only [Option.some.injEq, Prod.mk.injEq] at hps
  obtain ⟨rfl, rfl⟩ := hps
  constructor
  · exact ⟨r, hr, hcap, by simpa using List.mem_range.mp hpmem, hpf⟩
  · intro ri' pos' r' ws' c' hr' hcap' hpos' hsched'
    -- the best entry of route `ri'` dominates the candidate `(pos', c')`
    have hbest' := best_position_fold_range sd av matrix ci wt rp visit r'
      (r'.visits.length + 1)
    rcases hbest' with ⟨_, hall'⟩ | ⟨p2, sch2, hps2, hp2mem, hp2f, hp2min⟩
    · have := hall' pos' (List.mem_range.mpr hpos')
      simp only [hsched'] at this
      exact absurd this (by simp)
    have hd2 := hp2min pos' (List.mem_range.mpr hpos') (ws', c') (by simpa using hsched')
    -- that best entry is in the entries list
    have hmem2 : (ri', p2, sch2.1, sch2.2) ∈
        insertion_entries sd av matrix ci wt rp visit routes := by
      refine (mem_insertion_entries sd av matrix ci wt rp visit routes _).mpr ?_
      exact ⟨r', by simpa using hr', hcap', by simpa using hps2⟩
    have hdom := hbmin _ hmem2
    simp only at hdom
    refine ⟨le_trans hdom.1 hd2.1, ?_⟩
    intro hce
    have hsch2c : sch2.2 = c := le_antisymm (by omega) hdom.1
    have hri : ri ≤ ri' := hdom.2 hsch2c
    rcases Nat.lt_or_ge ri ri' with hlt | hge
    · exact Or.inl hlt
    · have hrieq : ri = ri' := le_antisymm hri hge
      subst hrieq
      right
      refine ⟨rfl, ?_⟩
      rw [hr] at hr'
      obtain rfl := Option.some_inj.mp hr'
      rw [hbpf] at hps2
      simp only [Option.some.injEq, Prod.mk.injEq] at hps2
      obtain ⟨rfl, rfl⟩ := hps2
      have := hpmin pos' (List.mem_range.mpr hpos') (ws', c') (by simpa using hsched')
      exact this.2 (by omega)

/-! ### Unassigned-reason lemmas (construction phase) -/

theorem seed_route_visitor (sd : Int) (av : AvailFn) (matrix : List (List Int))
    (ci : List ((Int × Int) × Nat)) (wt rp : Int) (pinned : List Visit)
    (visitor : Visitor) :
    (seed_route sd av matrix ci wt rp pinned visitor).1.visitor = visitor := by
  simp only [seed_route]
  split
  · rfl
  · split <;> rfl

theorem seed_routes_map_visitor (sd : Int) (av : AvailFn) (matrix : List (List Int))
    (ci : List ((Int × Int) × Nat)) (wt rp : Int) (visits : List Visit) :
    ∀ (vtrs : List Visitor),
      (seed_routes sd av matrix ci wt rp visits vtrs).1.map RouteState.visitor = vtrs
  | [] => rfl
  | visitor :: rest => by
    simp only [seed_routes, List.map_cons]
    rw [seed_route_visitor, seed_routes_map_visitor sd av matrix ci wt rp visits rest]

theorem modify_at_map_visitor (f : RouteState → RouteState)
    (hf : ∀ r, (f r).visitor = r.visitor) :
    ∀ (routes : List RouteState) (i : Nat),
      (modify_at routes i f).map RouteState.visitor = routes.map RouteState.visitor
  | [], _ => rfl
  | r :: rs, 0 => by simp [modify_at, hf]
  | r :: rs, n + 1 => by
    simp only [modify_at, List.map_cons]
    rw [modify_at_map_visitor f hf rs n]

theorem assign_free_visit_map_visitor (sd : Int) (av : AvailFn)
    (matrix : List (List Int)) (ci : List ((Int × Int) × Nat)) (wt rp : Int)
    (visitors : List Visitor) (state : List RouteState × List (Visit × UnassignedReason))
    (visit : Visit) :
    (assign_free_visit sd av matrix ci wt rp visitors state visit).1.map
        RouteState.visitor = state.1.map RouteState.visitor := by
  simp only [assign_free_visit]
  split
  · rfl
  · split
    · rename_i ri pos ws c heq
      exact modify_at_map_visitor (fun route =>
        { route with
          visits := route.visits.insertIdx pos visit
          estimated_windows := ws
          total_travel_time := c }) (fun r => rfl) state.1 ri
    · rfl

/-- The `is_available` flags over the route evaluations, pushed down to the
underlying `(index, route)` list. -/
theorem evals_any_available (sd : Int) (av : AvailFn) (matrix : List (List Int))
    (ci : List ((Int × Int) × Nat)) (wt rp : Int) (visit : Visit) :
    ∀ (l : List (Nat × RouteState)),
      ((l.filterMap (evaluate_route sd av matrix ci wt rp visit)).any (·.is_available))
        = l.any fun p =>
            visitor_can_do visit p.2.visitor && (av p.2.visitor.id sd).isSome
  | [] => rfl
  | p :: rest => by
    simp only [List.any_cons]
    rw [← evals_any_available sd av matrix ci wt rp visit rest]
    by_cases hc : visitor_can_do visit p.2.visitor
    · have : evaluate_route sd av matrix ci wt rp visit (p.1, p.2) =
          some { route_index := p.1,
                 best := best_position_fold sd av matrix ci wt rp visit p.2
                   (List.range (p.2.visits.length + 1)) none,
                 is_available := (av p.2.visitor.id sd).isSome } :=
        (evaluate_route_eq_some sd av matrix ci wt rp visit p.1 p.2 _).mpr ⟨hc, rfl⟩
      simp only [List.filterMap_cons]
      rw [show (p.1, p.2) = p from rfl] at this
      rw [this]
      simp [hc]
    · have : evaluate_route sd av matrix ci wt rp visit (p.1, p.2) = none := by
        unfold evaluate_route
        simp [hc]
      simp only [List.filterMap_cons]
      rw [show (p.1, p.2) = p from rfl] at this
      rw [this]
      simp [hc]

theorem any_comp_map (f : RouteState → Visitor) (p : Visitor → Bool) :
    ∀ (l : List RouteState), (l.map f).any p = l.any fun a => p (f a)
  | [] => rfl
  | a :: as => by simp [List.any_cons, any_comp_map f p as]

theorem enum_any_snd (g : RouteState → Bool) :
    ∀ (n : Nat) (l : List RouteState),
      ((l.enumFrom n).any fun p => g p.2) = l.any g
  | _, [] => rfl
  | n, r :: rs => by
    simp only [List.enumFrom, List.any_cons]
    rw [enum_any_snd g (n + 1) rs]

/-- The reason recorded by the free-visit loop when it fails to place a
visit, expressed over the input visitor list. -/
theorem assign_free_visit_unassigned (sd : Int) (av : AvailFn)
    (matrix : List (List Int)) (ci : List ((Int × Int) × Nat)) (wt rp : Int)
    (visitors : List Visitor) (state : List RouteState × List (Visit × UnassignedReason))
    (visit : Visit) (hmap : state.1.map RouteState.visitor = visitors) :
    (assign_free_visit sd av matrix ci wt rp visitors state visit).2 = state.2 ∨
    (assign_free_visit sd av matrix ci wt rp visitors state visit).2 =
      state.2 ++ [(visit,
        if visit_is_compatible visit visitors = false then .noCapableVisitor
        else if visitors.any (fun r => visitor_can_do visit r && (av r.id sd).isSome)
        then .noFeasibleWindow else .noCapableVisitor)] := by
  simp only [assign_free_visit]
  by_cases hcompat : visit_is_compatible visit visitors
  · rw [if_neg (by simp [hcompat])]
    have h1 : ((state.1.enum.filterMap
        (evaluate_route sd av matrix ci wt rp visit)).any (·.is_available))
        = state.1.enum.any
            (fun p => visitor_can_do visit p.2.visitor && (av p.2.visitor.id sd).isSome) :=
      evals_any_available sd av matrix ci wt rp visit state.1.enum
    have h2 : state.1.enum.any
          (fun p => visitor_can_do visit p.2.visitor && (av p.2.visitor.id sd).isSome)
        = state.1.any
            (fun r => visitor_can_do visit r.visitor && (av r.visitor.id sd).isSome) :=
      enum_any_snd
        (fun r => visitor_can_do visit r.visitor && (av r.visitor.id sd).isSome) 0 state.1
    have h3 : (visitors.any fun r => visitor_can_do visit r && (av r.id sd).isSome)
        = state.1.any
            (fun r => visitor_can_do visit r.visitor && (av r.visitor.id sd).isSome) := by
      rw [← hmap, any_comp_map]
    have hany : ((state.1.enum.filterMap
        (evaluate_route sd av matrix ci wt rp visit)).any (·.is_available))
        = visitors.any fun r => visitor_can_do visit r && (av r.id sd).isSome :=
      h1.trans (h2.trans h3.symm)
    split
    · exact Or.inl rfl
    · refine Or.inr ?_
      simp [hcompat, hany]
  · rw [if_pos (by simp [hcompat])]
    refine Or.inr ?_
    simp only [Bool.not_eq_true] at hcompat
    simp [hcompat]

theorem mem_initial_unassigned (sd : Int) (visits : List Visit)
    (p : Visit × UnassignedReason) (h : p ∈ initial_unassigned sd visits) :
    classify_visit sd p.1 = .unassignedAs p.2 := by
  unfold initial_unassigned at h
  rw [List.mem_filterMap] at h
  obtain ⟨v, _, hm⟩ := h
  rcases hcl : classify_visit sd v with _ | vid | r <;> rw [hcl] at hm
  · exact Option.noConfusion hm
  · exact Option.noConfusion hm
  · simp only [Option.some.injEq] at hm
    subst hm
    exact hcl

theorem mem_pinned_for (sd : Int) (visits : List Visit) (vid : Nat) (v : Visit)
    (h : v ∈ pinned_for sd visits vid) : classify_visit sd v = .pinnedTo vid := by
  unfold pinned_for at h
  rw [List.mem_filter] at h
  simpa using h.2

theorem mem_seed_routes_unassigned (sd : Int) (av : AvailFn)
    (matrix : List (List Int)) (ci : List ((Int × Int) × Nat)) (wt rp : Int)
    (visits : List Visit) :
    ∀ (vtrs : List Visitor) (p : Visit × UnassignedReason),
      p ∈ (seed_routes sd av matrix ci wt rp visits vtrs).2 →
      ∃ vid, classify_visit sd p.1 = .pinnedTo vid
  | [], p => by simp [seed_routes]
  | visitor :: rest, p => by
    intro h
    simp only [seed_routes] at h
    rw [List.mem_append] at h
    rcases h with h | h
    · refine ⟨visitor.id, ?_⟩
      simp only [seed_route] at h
      split at h
      · simp at h
      · split at h
        · simp at h
        · simp only [List.mem_map] at h
          obtain ⟨v, hv, rfl⟩ := h
          exact mem_pinned_for sd visits visitor.id v hv
    · exact mem_seed_routes_unassigned sd av matrix ci wt rp visits rest p h

/-- The reason attached to a free visit that the insertion loop fails to
place, stated over the input visitor list. -/
theorem assign_all_unassigned_mem (sd : Int) (av : AvailFn)
    (matrix : List (List Int)) (ci : List ((Int × Int) × Nat)) (wt rp : Int)
    (visitors : List Visitor) :
    ∀ (free : List Visit) (state : List RouteState × List (Visit × UnassignedReason)),
      state.1.map RouteState.visitor = visitors →
      ∀ p ∈ (assign_all sd av matrix ci wt rp visitors free state).2,
        p ∈ state.2 ∨
        p.2 = (if visit_is_compatible p.1 visitors = false then .noCapableVisitor
          else if visitors.any (fun r => visitor_can_do p.1 r && (av r.id sd).isSome)
          then .noFeasibleWindow else .noCapableVisitor)
  | [], state => by
    intro _ p hp
    exact Or.inl hp
  | v0 :: rest, state => by
    intro hmap p hp
    have hmap' : (assign_free_visit sd av matrix ci wt rp visitors state v0).1.map
        RouteState.visitor = visitors :=
      (assign_free_visit_map_visitor sd av matrix ci wt rp visitors state v0).trans hmap
    have hrec := assign_all_unassigned_mem sd av matrix ci wt rp visitors rest
      (assign_free_visit sd av matrix ci wt rp visitors state v0) hmap' p hp
    rcases hrec with hmem | hformula
    · rcases assign_free_visit_unassigned sd av matrix ci wt rp visitors state v0 hmap
        with heq | heq
      · rw [heq] at hmem
        exact Or.inl hmem
      · rw [heq, List.mem_append] at hmem
        rcases hmem with hmem | hmem
        · exact Or.inl hmem
        · simp only [List.mem_singleton] at hmem
          subst hmem
          exact Or.inr rfl
    · exact Or.inr hformula

/-- C4: For every free (non-pinned) visit that solve leaves unassigned: if no
visitor in the input list has capabilities that are a superset of the visit's
required capabilities, the reason is `NoCapableVisitor`; otherwise, if at
least one capable visitor has availability for the service date the reason is
`NoFeasibleWindow`, and if no capable visitor has availability for the date
the reason is `NoCapableVisitor`. -/
theorem c4_free_visit_unassigned_reason (sd : Int) (visits : List Visit)
    (visitors : List Visitor) (av : AvailFn) (M : MatrixFn) (o : SolveOptions)
    (v : Visit) (reason : UnassignedReason)
    (hmem : (v, reason) ∈ (solveInternal sd visits visitors av M o).2)
    (hfree : classify_visit sd v = .toAssign) :
    (visit_is_compatible v visitors = false → reason = .noCapableVisitor) ∧
    (visit_is_compatible v visitors = true →
      reason = if visitors.any (fun r => visitor_can_do v r && (av r.id sd).isSome)
               then .noFeasibleWindow else .noCapableVisitor) := by
  have hmem' : (v, reason) ∈ (construct sd visits visitors av M o).2 := hmem
  rw [show (construct sd visits visitors av M o).2 =
      (assign_all sd av (M (collect_locations visits visitors))
        (build_coord_index (collect_locations visits visitors))
        o.target_time_weight o.reassignment_penalty visitors
        (to_assign sd visits)
        ((seed_routes sd av (M (collect_locations visits visitors))
            (build_coord_index (collect_locations visits visitors))
            o.target_time_weight o.reassignment_penalty visits visitors).1,
         initial_unassigned sd visits ++
           (seed_routes sd av (M (collect_locations visits visitors))
             (build_coord_index (collect_locations visits visitors))
             o.target_time_weight o.reassignment_penalty visits visitors).2)).2
      from rfl] at hmem'
  have := assign_all_unassigned_mem sd av (M (collect_locations visits visitors))
    (build_coord_index (collect_locations visits visitors))
    o.target_time_weight o.reassignment_penalty visitors
    (to_assign sd visits)
    ((seed_routes sd av (M (collect_locations visits visitors))
        (build_coord_index (collect_locations visits visitors))
        o.target_time_weight o.reassignment_penalty visits visitors).1,
     initial_unassigned sd visits ++
       (seed_routes sd av (M (collect_locations visits visitors))
         (build_coord_index (collect_locations visits visitors))
         o.target_time_weight o.reassignment_penalty visits visitors).2)
    (seed_routes_map_visitor sd av (M (collect_locations visits visitors))
      (build_coord_index (collect_locations visits visitors))
      o.target_time_weight o.reassignment_penalty visits visitors)
    (v, reason) hmem'
  rcases this with hinit | hform
  · rw [List.mem_append] at hinit
    rcases hinit with hinit | hseed
    · have := mem_initial_unassigned sd visits _ hinit
      rw [hfree] at this
      exact absurd this (by simp)
    · obtain ⟨vid, hcl⟩ := mem_seed_routes_unassigned sd av
        (M (collect_locations visits visitors))
        (build_coord_index (collect_locations visits visitors))
        o.target_time_weight o.reassignment_penalty visits visitors _ hseed
      rw [hfree] at hcl
      exact absurd hcl (by simp)
  · simp only at hform
    constructor
    · intro hc
      rw [hform, if_pos hc]
    · intro hc
      rw [hform, if_neg (by simp [hc])]

/-! ### Sum lemmas for the local-search cost accounting -/

theorem sum_modify_at :
    ∀ (l : List RouteState) (i : Nat) (f : RouteState → RouteState) (r : RouteState),
      l[i]? = some r →
      ((modify_at l i f).map RouteState.total_travel_time).sum
        = (l.map RouteState.total_travel_time).sum
          - r.total_travel_time + (f r).total_travel_time
  | [], i, f, r => by simp
  | a :: as, 0, f, r => by
    intro h
    simp only [List.getElem?_cons_zero, Option.some.injEq] at h
    subst h
    simp only [modify_at, List.map_cons, List.sum_cons]
    ring
  | a :: as, i + 1, f, r => by
    intro h
    simp only [List.getElem?_cons_succ] at h
    simp only [modify_at, List.map_cons, List.sum_cons]
    rw [sum_modify_at as i f r h]
    ring

theorem mem_modify_at :
    ∀ (l : List RouteState) (i : Nat) (f : RouteState → RouteState) (r' : RouteState),
      r' ∈ modify_at l i f → r' ∈ l ∨ ∃ r, l[i]? = some r ∧ r' = f r
  | [], _, _, r' => by intro h; simp [modify_at] at h
  | a :: as, 0, f, r' => by
    intro h
    rcases List.mem_cons.mp h with rfl | h
    · exact Or.inr ⟨a, by simp, rfl⟩
    · exact Or.inl (List.mem_cons_of_mem _ h)
  | a :: as, i + 1, f, r' => by
    intro h
    rcases List.mem_cons.mp h with rfl | h
    · exact Or.inl (by simp)
    · rcases mem_modify_at as i f r' h with h | ⟨r0, h0, heq⟩
      · exact Or.inl (List.mem_cons_of_mem _ h)
      · exact Or.inr ⟨r0, by simpa using h0, heq⟩

theorem modify_at_getElem? :
    ∀ (l : List RouteState) (i : Nat) (f : RouteState → RouteState) (j : Nat),
      (modify_at l i f)[j]? = if i = j then (l[j]?).map f else l[j]?
  | [], i, f, j => by simp [modify_at]
  | a :: as, 0, f, 0 => by simp [modify_at]
  | a :: as, 0, f, j + 1 => by simp [modify_at]
  | a :: as, i + 1, f, 0 => by simp [modify_at]
  | a :: as, i + 1, f, j + 1 => by
    simp only [modify_at, List.getElem?_cons_succ]
    rw [modify_at_getElem? as i f j]
    by_cases h : i = j <;> simp [h]

/-- All indices in `enumFrom m` are at least `m`, so a `≠ k` filter with
`k < m` keeps everything. -/
theorem enum_filter_lt_sum (k : Nat) :
    ∀ (l : List RouteState) (m : Nat), k < m →
      (((l.enumFrom m).filter fun p => p.1 ≠ k).map
        fun p => p.2.total_travel_time).sum
      = (l.map RouteState.total_travel_time).sum
  | [], m => by simp
  | a :: as, m => by
    intro hk
    simp only [List.enumFrom, List.filter_cons]
    rw [if_pos (by simp; omega)]
    simp only [List.map_cons, List.sum_cons]
    rw [enum_filter_lt_sum k as (m + 1) (by omega)]

/-- Cost of "all routes other than index `i`" as computed by
`relocate_improve`. -/
theorem enum_filter_ne_sum :
    ∀ (l : List RouteState) (m i : Nat) (r : RouteState), l[i]? = some r →
      (((l.enumFrom m).filter fun p => p.1 ≠ m + i).map
        fun p => p.2.total_travel_time).sum
      = (l.map RouteState.total_travel_time).sum - r.total_travel_time
  | [], m, i, r => by simp
  | a :: as, m, 0, r => by
    intro h
    simp only [List.getElem?_cons_zero, Option.some.injEq] at h
    subst h
    simp only [List.enumFrom, List.filter_cons]
    rw [if_neg (by simp)]
    rw [show m + 0 = m from rfl]
    rw [enum_filter_lt_sum m as (m + 1) (by omega)]
    simp only [List.map_cons, List.sum_cons]
    ring
  | a :: as, m, i + 1, r => by
    intro h
    simp only [List.getElem?_cons_succ] at h
    simp only [List.enumFrom, List.filter_cons]
    rw [if_pos (by simp)]
    simp only [List.map_cons, List.sum_cons]
    have := enum_filter_ne_sum as (m + 1) i r h
    rw [show m + (i + 1) = m + 1 + i from by omega]
    rw [this]
    ring

/-- Cost of "all routes other than indices `i` and `k`" as computed by the
cross-route branch of `relocate_improve`. -/
theorem enum_filter_ne2_sum :
    ∀ (l : List RouteState) (m i k : Nat) (r s : RouteState), i ≠ k →
      l[i]? = some r → l[k]? = some s →
      (((l.enumFrom m).filter fun p => p.1 ≠ m + i ∧ p.1 ≠ m + k).map
        fun p => p.2.total_travel_time).sum
      = (l.map RouteState.total_travel_time).sum
        - r.total_travel_time - s.total_travel_time
  | [], m, i, k, r, s => by simp
  | a :: as, m, 0, k, r, s => by
    intro hik hr hs
    simp only [List.getElem?_cons_zero, Option.some.injEq] at hr
    subst hr
    obtain ⟨k', rfl⟩ : ∃ k', k = k' + 1 := ⟨k - 1, by omega⟩
    simp only [List.getElem?_cons_succ] at hs
    simp only [List.enumFrom, List.filter_cons]
    rw [if_neg (by simp)]
    have hcongr : (as.enumFrom (m + 1)).filter
          (fun p => p.1 ≠ m + 0 ∧ p.1 ≠ m + (k' + 1))
        = (as.enumFrom (m + 1)).filter (fun p => p.1 ≠ m + 1 + k') := by
      refine List.filter_congr ?_
      intro p hp
      have hbound := List.le_fst_of_mem_enumFrom hp
      simp only [decide_eq_decide]
      constructor
      · intro h2; rw [show m + 1 + k' = m + (k' + 1) from by omega]; exact h2.2
      · intro h2
        refine ⟨by omega, ?_⟩
        rw [show m + (k' + 1) = m + 1 + k' from by omega]
        exact h2
    rw [hcongr, enum_filter_ne_sum as (m + 1) k' s hs]
    simp only [List.map_cons, List.sum_cons]
    ring
  | a :: as, m, i + 1, k, r, s => by
    intro hik hr hs
    simp only [List.getElem?_cons_succ] at hr
    rcases k with _ | k'
    · simp only [List.getElem?_cons_zero, Option.some.injEq] at hs
      subst hs
      simp only [List.enumFrom, List.filter_cons]
      rw [if_neg (by simp)]
      have hcongr : (as.enumFrom (m + 1)).filter
            (fun p => p.1 ≠ m + (i + 1) ∧ p.1 ≠ m + 0)
          = (as.enumFrom (m + 1)).filter (fun p => p.1 ≠ m + 1 + i) := by
        refine List.filter_congr ?_
        intro p hp
        have hbound := List.le_fst_of_mem_enumFrom hp
        simp only [decide_eq_decide]
        constructor
        · intro h2; rw [show m + 1 + i = m + (i + 1) from by omega]; exact h2.1
        · intro h2
          refine ⟨?_, by omega⟩
          rw [show m + (i + 1) = m + 1 + i from by omega]
          exact h2
      rw [hcongr, enum_filter_ne_sum as (m + 1) i r hr]
      simp only [List.map_cons, List.sum_cons]
      ring
    · simp only [List.getElem?_cons_succ] at hs
      simp only [List.enumFrom, List.filter_cons]
      rw [if_pos (by simp)]
      simp only [List.map_cons, List.sum_cons]
      have := enum_filter_ne2_sum as (m + 1) i k' r s (by omega) hr hs
      rw [show m + (i + 1) = m + 1 + i from by omega,
        show m + (k' + 1) = m + 1 + k' from by omega, this]
      ring

/-- What a committed 2-opt move guarantees. -/
theorem two_opt_improve_spec (sd : Int) (av : AvailFn)
    (matrix : List (List Int)) (ci : List ((Int × Int) × Nat)) (wt rp : Int)
    (r r' : RouteState)
    (h : two_opt_improve sd av matrix ci wt rp r = some r') :
    r'.visitor = r.visitor ∧
    (∃ i j, r'.visits = reverse_segment r.visits i j) ∧
    compute_schedule sd r' av matrix ci wt rp
      = some (r'.estimated_windows, r'.total_travel_time) ∧
    r'.total_travel_time < r.total_travel_time := by
  unfold two_opt_improve at h
  split at h
  · exact Option.noConfusion h
  obtain ⟨p, _, hf⟩ := List.exists_of_findSome?_eq_some h
  simp only at hf
  split at hf
  · rename_i windows cost heq
    split at hf
    · rename_i hlt
      simp only [Option.some.injEq] at hf
      subst hf
      refine ⟨rfl, ⟨p.1, p.2, rfl⟩, ?_, hlt⟩
      rw [compute_schedule_congr sd av matrix ci wt rp
        { visitor := r.visitor, visits := reverse_segment r.visits p.1 p.2,
          estimated_windows := windows, total_travel_time := cost }
        { visitor := r.visitor, visits := reverse_segment r.visits p.1 p.2,
          estimated_windows := [], total_travel_time := 0 } rfl rfl]
      exact heq
    · exact Option.noConfusion hf
  · exact Option.noConfusion hf

theorem mem_insertIdx_cases :
    ∀ (n : Nat) (l : List Visit) (x v : Visit), v ∈ l.insertIdx n x → v = x ∨ v ∈ l
  | 0, l, x, v => by intro h; simpa using (List.mem_cons.mp h).imp id id
  | n + 1, [], x, v => by intro h; simp [List.insertIdx] at h
  | n + 1, a :: l, x, v => by
    intro h
    simp only [List.insertIdx_succ_cons] at h
    rcases List.mem_cons.mp h with rfl | h
    · exact Or.inr (by simp)
    · rcases mem_insertIdx_cases n l x v h with h | h
      · exact Or.inl h
      · exact Or.inr (by simp [h])

theorem enum_filter_ne_sum0 (l : List RouteState) (i : Nat) (r : RouteState)
    (h : l[i]? = some r) :
    ((l.enum.filter fun p => p.1 ≠ i).map fun p => p.2.total_travel_time).sum
      = (l.map RouteState.total_travel_time).sum - r.total_travel_time := by
  have := enum_filter_ne_sum l 0 i r h
  rw [show (0 : Nat) + i = i from by omega] at this
  exact this

theorem enum_filter_ne2_sum0 (l : List RouteState) (i k : Nat) (r s : RouteState)
    (hik : i ≠ k) (hr : l[i]? = some r) (hs : l[k]? = some s) :
    ((l.enum.filter fun p => p.1 ≠ i ∧ p.1 ≠ k).map
      fun p => p.2.total_travel_time).sum
      = (l.map RouteState.total_travel_time).sum
        - r.total_travel_time - s.total_travel_time := by
  have := enum_filter_ne2_sum l 0 i k r s hik hr hs
  rw [show (0 : Nat) + i = i from by omega, show (0 : Nat) + k = k from by omega] at this
  exact this

/-- A route whose stored windows and cost come from scheduling its own
visit sequence satisfies `RouteOk`. -/
theorem RouteOk_of_schedule (sd : Int) (av : AvailFn)
    (matrix : List (List Int)) (ci : List ((Int × Int) × Nat)) (wt rp : Int)
    (vtr : Visitor) (vs : List Visit) (ws : List (Int × Int)) (c : Int)
    (h : compute_schedule sd ⟨vtr, vs, [], 0⟩ av matrix ci wt rp = some (ws, c)) :
    RouteOk sd av matrix ci wt rp ⟨vtr, vs, ws, c⟩ := by
  right
  rw [compute_schedule_congr sd av matrix ci wt rp ⟨vtr, vs, ws, c⟩ ⟨vtr, vs, [], 0⟩
    rfl rfl]
  exact h

/-- What a committed relocate move guarantees: the global stored cost
strictly decreases, the schedule invariant is preserved, visitors stay in
place, and every visit in the new routes was already in some old route. -/
theorem relocate_apply_spec (sd : Int) (av : AvailFn)
    (matrix : List (List Int)) (ci : List ((Int × Int) × Nat)) (wt rp : Int)
    (routes : List RouteState) (c : Nat × Nat × Nat × Nat) (routes' : List RouteState)
    (h : relocate_apply sd av matrix ci wt rp routes
      ((routes.map RouteState.total_travel_time).sum) c = some routes') :
    ((routes'.map RouteState.total_travel_time).sum
      < (routes.map RouteState.total_travel_time).sum) ∧
    ((∀ r ∈ routes, RouteOk sd av matrix ci wt rp r) →
      ∀ r ∈ routes', RouteOk sd av matrix ci wt rp r) ∧
    (routes'.map RouteState.visitor = routes.map RouteState.visitor) ∧
    (∀ r' ∈ routes', ∀ v ∈ r'.visits, ∃ r ∈ routes, v ∈ r.visits) := by
  simp only [relocate_apply] at h
  split at h
  case h_2 => exact Option.noConfusion h
  rename_i from_route to_route hfrom hto
  rw [List.get?_eq_getElem?] at hfrom hto
  split at h
  · exact Option.noConfusion h
  rename_i visit hvisit
  rw [List.get?_eq_getElem?] at hvisit
  have hvisit_mem : visit ∈ from_route.visits := List.getElem?_mem hvisit
  have hfrom_mem : from_route ∈ routes := List.getElem?_mem hfrom
  split at h
  · exact Option.noConfusion h
  rename_i from_windows from_cost hfsched
  split at h
  case isTrue hsame =>
    -- same-route move
    split at h
    case isFalse => exact Option.noConfusion h
    rename_i himp
    simp only [Option.some.injEq] at h
    subst h
    simp only [relocate_actual_pos, hsame, eq_self_iff_true, if_true, true_and]
      at hfsched himp ⊢
    have hfrom' : routes[c.2.2.1]? = some from_route := by rw [← hsame]; exact hfrom
    rw [enum_filter_ne_sum0 routes c.2.2.1 from_route hfrom'] at himp
    constructor
    · rw [sum_modify_at routes c.2.2.1 _ from_route hfrom']
      simp only
      omega
    refine ⟨?_, ?_, ?_⟩
    · intro hall r' hr'
      rcases mem_modify_at routes c.2.2.1 _ r' hr' with hmem | ⟨r0, hr0, rfl⟩
      · exact hall r' hmem
      · rw [hfrom'] at hr0
        obtain rfl := Option.some_inj.mp hr0
        exact RouteOk_of_schedule sd av matrix ci wt rp _ _ _ _ hfsched
    · exact modify_at_map_visitor (fun route =>
        { route with
          visits := (from_route.visits.eraseIdx c.2.1).insertIdx
            (if c.2.2.2 > c.2.1 then c.2.2.2 - 1 else c.2.2.2) visit
          estimated_windows := from_windows
          total_travel_time := from_cost }) (fun r => rfl) routes c.2.2.1
    · intro r' hr' v hv
      rcases mem_modify_at routes c.2.2.1 _ r' hr' with hmem | ⟨r0, hr0, rfl⟩
      · exact ⟨r', hmem, hv⟩
      · rw [hfrom'] at hr0
        obtain rfl := Option.some_inj.mp hr0
        simp only at hv
        rcases mem_insertIdx_cases _ _ _ _ hv with rfl | hv
        · exact ⟨from_route, hfrom_mem, hvisit_mem⟩
        · exact ⟨from_route, hfrom_mem, List.mem_of_mem_eraseIdx hv⟩
  case isFalse hdiff =>
    -- cross-route move
    split at h
    · exact Option.noConfusion h
    rename_i to_windows to_cost htsched
    split at h
    case isFalse => exact Option.noConfusion h
    rename_i himp
    simp only [Option.some.injEq] at h
    subst h
    simp only [relocate_actual_pos, hdiff, false_and, if_false] at hfsched htsched ⊢
    rw [enum_filter_ne2_sum0 routes c.1 c.2.2.1 from_route to_route hdiff hfrom hto]
      at himp
    have hget_to : (modify_at routes c.1 fun route =>
        { route with
          visits := route.visits.eraseIdx c.2.1
          estimated_windows := from_windows
          total_travel_time := from_cost })[c.2.2.1]? = some to_route := by
      rw [modify_at_getElem?, if_neg hdiff, hto]
    constructor
    · rw [sum_modify_at _ c.2.2.1 _ to_route hget_to,
        sum_modify_at routes c.1 _ from_route hfrom]
      simp only
      omega
    refine ⟨?_, ?_, ?_⟩
    · intro hall r' hr'
      rcases mem_modify_at _ c.2.2.1 _ r' hr' with hmem | ⟨r0, hr0, rfl⟩
      · rcases mem_modify_at routes c.1 _ r' hmem with hmem2 | ⟨r0, hr0, rfl⟩
        · exact hall r' hmem2
        · rw [hfrom] at hr0
          obtain rfl := Option.some_inj.mp hr0
          exact RouteOk_of_schedule sd av matrix ci wt rp _ _ _ _ hfsched
      · rw [hget_to] at hr0
        obtain rfl := Option.some_inj.mp hr0
        exact RouteOk_of_schedule sd av matrix ci wt rp _ _ _ _ htsched
    · rw [modify_at_map_visitor (fun route =>
          { route with
            visits := route.visits.insertIdx c.2.2.2 visit
            estimated_windows := to_windows
            total_travel_time := to_cost }) (fun r => rfl),
        modify_at_map_visitor (fun route =>
          { route with
            visits := route.visits.eraseIdx c.2.1
            estimated_windows := from_windows
            total_travel_time := from_cost }) (fun r => rfl)]
    · intro r' hr' v hv
      rcases mem_modify_at _ c.2.2.1 _ r' hr' with hmem | ⟨r0, hr0, rfl⟩
      · rcases mem_modify_at routes c.1 _ r' hmem with hmem2 | ⟨r0, hr0, rfl⟩
        · exact ⟨r', hmem2, hv⟩
        · rw [hfrom] at hr0
          obtain rfl := Option.some_inj.mp hr0
          simp only at hv
          exact ⟨from_route, hfrom_mem, List.mem_of_mem_eraseIdx hv⟩
      · rw [hget_to] at hr0
        obtain rfl := Option.some_inj.mp hr0
        simp only at hv
        rcases mem_insertIdx_cases _ _ _ _ hv with rfl | hv
        · exact ⟨from_route, hfrom_mem, hvisit_mem⟩
        · exact ⟨to_route, List.getElem?_mem hto, hv⟩

theorem mem_reverse_segment (l : List Visit) (i j : Nat) (v : Visit)
    (h : v ∈ reverse_segment l i j) : v ∈ l := by
  unfold reverse_segment at h
  rcases List.mem_append.mp h with h | h
  · rcases List.mem_append.mp h with h | h
    · exact List.mem_of_mem_take h
    · exact List.mem_of_mem_drop (List.mem_of_mem_take (List.mem_reverse.mp h))
  · exact List.mem_of_mem_drop h

/-- What a relocate pass guarantees when it commits a move. -/
theorem relocate_improve_spec (sd : Int) (av : AvailFn)
    (matrix : List (List Int)) (ci : List ((Int × Int) × Nat)) (wt rp : Int)
    (routes routes' : List RouteState)
    (h : relocate_improve sd av matrix ci wt rp routes = some routes') :
    ((routes'.map RouteState.total_travel_time).sum
      < (routes.map RouteState.total_travel_time).sum) ∧
    ((∀ r ∈ routes, RouteOk sd av matrix ci wt rp r) →
      ∀ r ∈ routes', RouteOk sd av matrix ci wt rp r) ∧
    (routes'.map RouteState.visitor = routes.map RouteState.visitor) ∧
    (∀ r' ∈ routes', ∀ v ∈ r'.visits, ∃ r ∈ routes, v ∈ r.visits) := by
  unfold relocate_improve at h
  obtain ⟨c, _, hc⟩ := List.exists_of_findSome?_eq_some h
  exact relocate_apply_spec sd av matrix ci wt rp routes c routes' hc

/-- What the per-pass 2-opt sweep guarantees. -/
theorem two_opt_pass_spec (sd : Int) (av : AvailFn)
    (matrix : List (List Int)) (ci : List ((Int × Int) × Nat)) (wt rp : Int) :
    ∀ (routes : List RouteState),
      (((two_opt_pass sd av matrix ci wt rp routes).1.map
          RouteState.total_travel_time).sum
        ≤ (routes.map RouteState.total_travel_time).sum) ∧
      ((∀ r ∈ routes, RouteOk sd av matrix ci wt rp r) →
        ∀ r ∈ (two_opt_pass sd av matrix ci wt rp routes).1,
          RouteOk sd av matrix ci wt rp r) ∧
      ((two_opt_pass sd av matrix ci wt rp routes).1.map RouteState.visitor
        = routes.map RouteState.visitor) ∧
      (∀ r' ∈ (two_opt_pass sd av matrix ci wt rp routes).1, ∀ v ∈ r'.visits,
        ∃ r ∈ routes, v ∈ r.visits)
  | [] => by simp [two_opt_pass]
  | r0 :: rest => by
    obtain ⟨ih1, ih2, ih3, ih4⟩ := two_opt_pass_spec sd av matrix ci wt rp rest
    simp only [two_opt_pass]
    rcases himp : two_opt_improve sd av matrix ci wt rp r0 with _ | r0'
    · simp only
      refine ⟨?_, ?_, ?_, ?_⟩
      · simp only [List.map_cons, List.sum_cons]
        omega
      · intro hall r hr
        rcases List.mem_cons.mp hr with rfl | hr
        · exact hall r (by simp)
        · exact ih2 (fun r hr => hall r (by simp [hr])) r hr
      · simp only [List.map_cons, ih3]
      · intro r' hr' v hv
        rcases List.mem_cons.mp hr' with rfl | hr'
        · exact ⟨r', by simp, hv⟩
        · obtain ⟨r, hr, hvr⟩ := ih4 r' hr' v hv
          exact ⟨r, by simp [hr], hvr⟩
    · obtain ⟨hvtr, ⟨i, j, hvisits⟩, hsched, hcost⟩ :=
        two_opt_improve_spec sd av matrix ci wt rp r0 r0' himp
      simp only
      refine ⟨?_, ?_, ?_, ?_⟩
      · simp only [List.map_cons, List.sum_cons]
        omega
      · intro hall r hr
        rcases List.mem_cons.mp hr with rfl | hr
        · exact Or.inr hsched
        · exact ih2 (fun r hr => hall r (by simp [hr])) r hr
      · simp only [List.map_cons, ih3, hvtr]
      · intro r' hr' v hv
        rcases List.mem_cons.mp hr' with rfl | hr'
        · rw [hvisits] at hv
          exact ⟨r0, by simp, mem_reverse_segment _ _ _ _ hv⟩
        · obtain ⟨r, hr, hvr⟩ := ih4 r' hr' v hv
          exact ⟨r, by simp [hr], hvr⟩

/-- What the whole local-search loop guarantees: the stored total cost never
increases, the schedule invariant, visitor placement and visit provenance
are preserved. -/
theorem local_search_spec (sd : Int) (av : AvailFn)
    (matrix : List (List Int)) (ci : List ((Int × Int) × Nat)) (wt rp : Int) :
    ∀ (n : Nat) (routes : List RouteState),
      (((local_search sd av matrix ci wt rp n routes).map
          RouteState.total_travel_time).sum
        ≤ (routes.map RouteState.total_travel_time).sum) ∧
      ((∀ r ∈ routes, RouteOk sd av matrix ci wt rp r) →
        ∀ r ∈ local_search sd av matrix ci wt rp n routes,
          RouteOk sd av matrix ci wt rp r) ∧
      ((local_search sd av matrix ci wt rp n routes).map RouteState.visitor
        = routes.map RouteState.visitor) ∧
      (∀ r' ∈ local_search sd av matrix ci wt rp n routes, ∀ v ∈ r'.visits,
        ∃ r ∈ routes, v ∈ r.visits)
  | 0, routes => by
    refine ⟨le_refl _, fun h => h, rfl, ?_⟩
    intro r' hr' v hv
    exact ⟨r', hr', hv⟩
  | n + 1, routes => by
    obtain ⟨hp1, hp2, hp3, hp4⟩ := two_opt_pass_spec sd av matrix ci wt rp routes
    simp only [local_search]
    rcases hrel : relocate_improve sd av matrix ci wt rp
        (two_opt_pass sd av matrix ci wt rp routes).1 with _ | routes2
    · simp only
      split
      · obtain ⟨ih1, ih2, ih3, ih4⟩ := local_search_spec sd av matrix ci wt rp n
          (two_opt_pass sd av matrix ci wt rp routes).1
        refine ⟨le_trans ih1 hp1, fun hall => ih2 (hp2 hall), ih3.trans hp3, ?_⟩
        intro r' hr' v hv
        obtain ⟨r1, hr1, hv1⟩ := ih4 r' hr' v hv
        exact hp4 r1 hr1 v hv1
      · exact ⟨hp1, hp2, hp3, hp4⟩
    · obtain ⟨hr1, hr2, hr3, hr4⟩ := relocate_improve_spec sd av matrix ci wt rp _ _ hrel
      obtain ⟨ih1, ih2, ih3, ih4⟩ := local_search_spec sd av matrix ci wt rp n routes2
      refine ⟨le_trans ih1 (le_trans (le_of_lt hr1) hp1),
        fun hall => ih2 (hr2 (hp2 hall)), ih3.trans (hr3.trans hp3), ?_⟩
      intro r' hr' v hv
      obtain ⟨r2, hrr2, hv2⟩ := ih4 r' hr' v hv
      obtain ⟨r1, hrr1, hv1⟩ := hr4 r2 hrr2 v hv2
      exact hp4 r1 hrr1 v hv1

theorem seed_route_spec (sd : Int) (av : AvailFn)
    (matrix : List (List Int)) (ci : List ((Int × Int) × Nat)) (wt rp : Int)
    (pinned : List Visit) (visitor : Visitor) :
    RouteOk sd av matrix ci wt rp (seed_route sd av matrix ci wt rp pinned visitor).1 ∧
    ∀ v ∈ (seed_route sd av matrix ci wt rp pinned visitor).1.visits, v ∈ pinned := by
  simp only [seed_route]
  split
  · rename_i hemp
    simp only [List.isEmpty_iff] at hemp
    exact ⟨Or.inl ⟨hemp, rfl, rfl⟩, by simp [hemp]⟩
  · split
    · rename_i windows cost hsched
      refine ⟨RouteOk_of_schedule sd av matrix ci wt rp visitor pinned windows cost
        hsched, ?_⟩
      intro v hv
      exact hv
    · exact ⟨Or.inl ⟨rfl, rfl, rfl⟩, by simp⟩

theorem seed_routes_spec (sd : Int) (av : AvailFn)
    (matrix : List (List Int)) (ci : List ((Int × Int) × Nat)) (wt rp : Int)
    (visits : List Visit) :
    ∀ (vtrs : List Visitor),
      (∀ r ∈ (seed_routes sd av matrix ci wt rp visits vtrs).1,
        RouteOk sd av matrix ci wt rp r) ∧
      (∀ r ∈ (seed_routes sd av matrix ci wt rp visits vtrs).1,
        ∀ v ∈ r.visits, v ∈ visits)
  | [] => by simp [seed_routes]
  | visitor :: rest => by
    obtain ⟨ih1, ih2⟩ := seed_routes_spec sd av matrix ci wt rp visits rest
    obtain ⟨hok, hsub⟩ := seed_route_spec sd av matrix ci wt rp
      (pinned_for sd visits visitor.id) visitor
    simp only [seed_routes]
    constructor
    · intro r hr
      rcases List.mem_cons.mp hr with rfl | hr
      · exact hok
      · exact ih1 r hr
    · intro r hr v hv
      rcases List.mem_cons.mp hr with rfl | hr
      · have := hsub v hv
        unfold pinned_for at this
        exact List.mem_of_mem_filter this
      · exact ih2 r hr v hv

theorem assign_free_visit_routes_spec (sd : Int) (av : AvailFn)
    (matrix : List (List Int)) (ci : List ((Int × Int) × Nat)) (wt rp : Int)
    (visitors : List Visitor) (state : List RouteState × List (Visit × UnassignedReason))
    (visit : Visit) :
    ((∀ r ∈ state.1, RouteOk sd av matrix ci wt rp r) →
      ∀ r ∈ (assign_free_visit sd av matrix ci wt rp visitors state visit).1,
        RouteOk sd av matrix ci wt rp r) ∧
    (∀ r' ∈ (assign_free_visit sd av matrix ci wt rp visitors state visit).1,
      ∀ v ∈ r'.visits, v = visit ∨ ∃ r ∈ state.1, v ∈ r.visits) := by
  simp only [assign_free_visit]
  split
  · exact ⟨fun h => h, fun r' hr' v hv => Or.inr ⟨r', hr', hv⟩⟩
  · split
    · rename_i ri pos ws cost hch
      obtain ⟨⟨rbest, hrbest, _, _, hsched⟩, _⟩ :=
        c5_insertion_choice_optimal sd av matrix ci wt rp visit state.1 ri pos ws cost hch
      constructor
      · intro hall r hr
        rcases mem_modify_at state.1 ri _ r hr with hmem | ⟨r0, hr0, rfl⟩
        · exact hall r hmem
        · rw [hrbest] at hr0
          obtain rfl := Option.some_inj.mp hr0
          exact RouteOk_of_schedule sd av matrix ci wt rp _ _ _ _ hsched
      · intro r' hr' v hv
        rcases mem_modify_at state.1 ri _ r' hr' with hmem | ⟨r0, hr0, rfl⟩
        · exact Or.inr ⟨r', hmem, hv⟩
        · simp only at hv
          rcases mem_insertIdx_cases _ _ _ _ hv with rfl | hv
          · exact Or.inl rfl
          · exact Or.inr ⟨r0, List.getElem?_mem hr0, hv⟩
    · exact ⟨fun h => h, fun r' hr' v hv => Or.inr ⟨r', hr', hv⟩⟩

theorem assign_all_routes_spec (sd : Int) (av : AvailFn)
    (matrix : List (List Int)) (ci : List ((Int × Int) × Nat)) (wt rp : Int)
    (visitors : List Visitor) (allVisits : List Visit) :
    ∀ (free : List Visit) (state : List RouteState × List (Visit × UnassignedReason)),
      (∀ v ∈ free, v ∈ allVisits) →
      (∀ r ∈ state.1, RouteOk sd av matrix ci wt rp r) →
      (∀ r ∈ state.1, ∀ v ∈ r.visits, v ∈ allVisits) →
      (∀ r ∈ (assign_all sd av matrix ci wt rp visitors free state).1,
        RouteOk sd av matrix ci wt rp r) ∧
      (∀ r ∈ (assign_all sd av matrix ci wt rp visitors free state).1,
        ∀ v ∈ r.visits, v ∈ allVisits)
  | [], state => by
    intro _ hok hsub
    exact ⟨hok, hsub⟩
  | v0 :: rest, state => by
    intro hfree hok hsub
    obtain ⟨hstep_ok, hstep_sub⟩ := assign_free_visit_routes_spec sd av matrix ci wt rp
      visitors state v0
    refine assign_all_routes_spec sd av matrix ci wt rp visitors allVisits rest
      (assign_free_visit sd av matrix ci wt rp visitors state v0)
      (fun v hv => hfree v (by simp [hv])) (hstep_ok hok) ?_
    intro r hr v hv
    rcases hstep_sub r hr v hv with rfl | ⟨r0, hr0, hv0⟩
    · exact hfree v (by simp)
    · exact hsub r0 hr0 v hv0

/-- The assignment phase (`construct`) establishes the route invariants:
every route's stored schedule is `compute_schedule`-backed, the routes list
carries exactly the input visitors in order, and every routed visit is an
input visit. -/
theorem construct_spec (sd : Int) (visits : List Visit) (visitors : List Visitor)
    (av : AvailFn) (M : MatrixFn) (o : SolveOptions) :
    (∀ r ∈ (construct sd visits visitors av M o).1,
      RouteOk sd av (M (collect_locations visits visitors))
        (build_coord_index (collect_locations visits visitors))
        o.target_time_weight o.reassignment_penalty r) ∧
    ((construct sd visits visitors av M o).1.map RouteState.visitor = visitors) ∧
    (∀ r ∈ (construct sd visits visitors av M o).1, ∀ v ∈ r.visits, v ∈ visits) := by
  obtain ⟨hseed_ok, hseed_sub⟩ := seed_routes_spec sd av
    (M (collect_locations visits visitors))
    (build_coord_index (collect_locations visits visitors))
    o.target_time_weight o.reassignment_penalty visits visitors
  have hfree_sub : ∀ v ∈ to_assign sd visits, v ∈ visits := by
    intro v hv
    unfold to_assign at hv
    exact List.mem_of_mem_filter hv
  obtain ⟨h1, h2⟩ := assign_all_routes_spec sd av
    (M (collect_locations visits visitors))
    (build_coord_index (collect_locations visits visitors))
    o.target_time_weight o.reassignment_penalty visitors visits
    (to_assign sd visits)
    ((seed_routes sd av (M (collect_locations visits visitors))
        (build_coord_index (collect_locations visits visitors))
        o.target_time_weight o.reassignment_penalty visits visitors).1,
     initial_unassigned sd visits ++
       (seed_routes sd av (M (collect_locations visits visitors))
         (build_coord_index (collect_locations visits visitors))
         o.target_time_weight o.reassignment_penalty visits visitors).2)
    hfree_sub hseed_ok hseed_sub
  refine ⟨h1, ?_, h2⟩
  show (assign_all sd av (M (collect_locations visits visitors))
      (build_coord_index (collect_locations visits visitors))
      o.target_time_weight o.reassignment_penalty visitors (to_assign sd visits)
      _).1.map RouteState.visitor = visitors
  generalize hstate : ((seed_routes sd av (M (collect_locations visits visitors))
      (build_coord_index (collect_locations visits visitors))
      o.target_time_weight o.reassignment_penalty visits visitors).1,
    initial_unassigned sd visits ++
      (seed_routes sd av (M (collect_locations visits visitors))
        (build_coord_index (collect_locations visits visitors))
        o.target_time_weight o.reassignment_penalty visits visitors).2) = state
  have hmap0 : state.1.map RouteState.visitor = visitors := by
    rw [← hstate]
    exact seed_routes_map_visitor sd av (M (collect_locations visits visitors))
      (build_coord_index (collect_locations visits visitors))
      o.target_time_weight o.reassignment_penalty visits visitors
  clear hstate
  induction (to_assign sd visits) generalizing state with
  | nil => exact hmap0
  | cons v0 rest ih =>
    exact ih _ ((assign_free_visit_map_visitor sd av _ _ _ _ visitors state v0).trans
      hmap0)

/-- The route invariants carried from construction through local search to
the final internal state of `solve`. -/
theorem solveInternal_routes_spec (sd : Int) (visits : List Visit)
    (visitors : List Visitor) (av : AvailFn) (M : MatrixFn) (o : SolveOptions) :
    (∀ r ∈ (solveInternal sd visits visitors av M o).1,
      RouteOk sd av (M (collect_locations visits visitors))
        (build_coord_index (collect_locations visits visitors))
        o.target_time_weight o.reassignment_penalty r) ∧
    ((solveInternal sd visits visitors av M o).1.map RouteState.visitor = visitors) ∧
    (∀ r ∈ (solveInternal sd visits visitors av M o).1, ∀ v ∈ r.visits, v ∈ visits) ∧
    (((solveInternal sd visits visitors av M o).1.map
        RouteState.total_travel_time).sum
      ≤ ((construct sd visits visitors av M o).1.map
          RouteState.total_travel_time).sum) := by
  obtain ⟨hc1, hc2, hc3⟩ := construct_spec sd visits visitors av M o
  obtain ⟨hl1, hl2, hl3, hl4⟩ := local_search_spec sd av
    (M (collect_locations visits visitors))
    (build_coord_index (collect_locations visits visitors))
    o.target_time_weight o.reassignment_penalty o.local_search_iterations
    (construct sd visits visitors av M o).1
  refine ⟨hl2 hc1, hl3.trans hc2, ?_, hl1⟩
  intro r hr v hv
  obtain ⟨r0, hr0, hv0⟩ := hl4 r hr v hv
  exact hc3 r0 hr0 v hv0

/-- C2: For every route in the result of solve, under the preconditions that
every matrix entry is a non-negative integer with zero diagonal and every
visit's duration is positive: `|estimated_windows| = |visit_ids|`; each
window satisfies `end = start + 60 * estimated_duration_minutes` of its
visit; consecutive windows satisfy `windows[i].end ≤ windows[i+1].start`;
and each window is contained in some availability segment returned by the
availability provider for that visitor and the service date. -/
theorem c2_route_windows_invariants (sd : Int) (visits : List Visit)
    (visitors : List Visitor) (av : AvailFn) (M : MatrixFn) (o : SolveOptions)
    (hm : MatrixNonneg (M (collect_locations visits visitors)))
    (hz : MatrixDiagZero (M (collect_locations visits visitors)))
    (hd : ∀ v ∈ visits, 0 < v.estimated_duration_minutes)
    (r : RouteState) (hr : r ∈ (solveInternal sd visits visitors av M o).1) :
    r.estimated_windows.length = r.visits.length ∧
    (∀ (k : Nat) (v : Visit) (w : Int × Int), r.visits[k]? = some v →
      r.estimated_windows[k]? = some w →
      w.2 = w.1 + v.estimated_duration_minutes * 60) ∧
    List.Chain' (fun w w' => w.2 ≤ w'.1) r.estimated_windows ∧
    (∀ w ∈ r.estimated_windows, ∃ aw, av r.visitor.id sd = some aw ∧
      ∃ seg ∈ aw, seg.1 ≤ w.1 ∧ w.2 ≤ seg.2) := by
  obtain ⟨hok, _, hsub, _⟩ := solveInternal_routes_spec sd visits visitors av M o
  rcases hok r hr with ⟨hv0, hw0, _⟩ | hsched
  · rw [hv0, hw0]
    simp
  · obtain ⟨aw, haw, hlen, hchain, hidx⟩ := compute_schedule_spec sd r av
      (M (collect_locations visits visitors))
      (build_coord_index (collect_locations visits visitors))
      o.target_time_weight o.reassignment_penalty hm
      (fun v hv => hd v (hsub r hr v hv)) _ _ hsched
    refine ⟨hlen, ?_, hchain, ?_⟩
    · intro k v w hv hw
      exact (hidx k v w hv hw).1
    · intro w hw
      obtain ⟨k, hk⟩ := List.getElem?_of_mem hw
      have hklen : k < r.visits.length := by
        rw [← hlen]
        exact (List.getElem?_eq_some.mp hk).1
      obtain ⟨v, hvk⟩ : ∃ v, r.visits[k]? = some v :=
        ⟨r.visits[k], (List.getElem?_eq_getElem hklen)⟩
      obtain ⟨_, hcont, _⟩ := hidx k v w hvk hk
      exact ⟨aw, haw, hcont⟩

/-- C3: For every visit assigned by solve that has a committed window
`(cw_s, cw_e)`, its scheduled window satisfies `cw_s ≤ start ≤ cw_e` and
`start + duration ≤ cw_e` (the whole window lies inside the committed
window). -/
theorem c3_committed_window_respected (sd : Int) (visits : List Visit)
    (visitors : List Visitor) (av : AvailFn) (M : MatrixFn) (o : SolveOptions)
    (r : RouteState) (hr : r ∈ (solveInternal sd visits visitors av M o).1)
    (k : Nat) (v : Visit) (w : Int × Int)
    (hv : r.visits[k]? = some v) (hw : r.estimated_windows[k]? = some w)
    (cs ce : Int) (hcw : v.committed_window = some (cs, ce)) :
    cs ≤ w.1 ∧ w.1 ≤ ce ∧ w.1 + v.estimated_duration_minutes * 60 ≤ ce := by
  obtain ⟨hok, _, _, _⟩ := solveInternal_routes_spec sd visits visitors av M o
  rcases hok r hr with ⟨hv0, hw0, _⟩ | hsched
  · rw [hv0] at hv
    simp at hv
  · obtain ⟨_, hidx⟩ := compute_schedule_committed sd r av
      (M (collect_locations visits visitors))
      (build_coord_index (collect_locations visits visitors))
      o.target_time_weight o.reassignment_penalty _ _ hsched
    obtain ⟨harith, hcomm⟩ := hidx k v w hv hw
    obtain ⟨h1, h2, h3⟩ := hcomm cs ce hcw
    exact ⟨h1, h2, by omega⟩

/-- The assignment phase reads only the two weight fields of the options. -/
theorem construct_congr (sd : Int) (visits : List Visit) (visitors : List Visitor)
    (av : AvailFn) (M : MatrixFn) (o1 o2 : SolveOptions)
    (hw : o1.target_time_weight = o2.target_time_weight)
    (hp : o1.reassignment_penalty = o2.reassignment_penalty) :
    construct sd visits visitors av M o1 = construct sd visits visitors av M o2 := by
  unfold construct
  rw [hw, hp]

theorem project_routes_total (state : List RouteState × List (Visit × UnassignedReason)) :
    (project_result state).routes.map RouteResult.total_travel_time
      = state.1.map RouteState.total_travel_time := by
  simp only [project_result, List.map_map]
  rfl

/-- C6: For every input and with all other arguments identical, the sum over
all routes of `total_cost` returned by solve with `local_search_iterations ≥ 1`
is less than or equal to the corresponding sum returned by solve with
`local_search_iterations = 0`. -/
theorem c6_local_search_monotone (sd : Int) (visits : List Visit)
    (visitors : List Visitor) (av : AvailFn) (M : MatrixFn) (o1 o2 : SolveOptions)
    (hw : o1.target_time_weight = o2.target_time_weight)
    (hp : o1.reassignment_penalty = o2.reassignment_penalty)
    (hi : 1 ≤ o1.local_search_iterations) (hz : o2.local_search_iterations = 0) :
    ((solve sd visits visitors av M o1).routes.map
        RouteResult.total_travel_time).sum
      ≤ ((solve sd visits visitors av M o2).routes.map
          RouteResult.total_travel_time).sum := by
  obtain ⟨_, _, _, hsum⟩ := solveInternal_routes_spec sd visits visitors av M o1
  unfold solve
  rw [project_routes_total, project_routes_total]
  have h2 : (solveInternal sd visits visitors av M o2).1
      = (construct sd visits visitors av M o2).1 := by
    show local_search sd av (M (collect_locations visits visitors))
      (build_coord_index (collect_locations visits visitors))
      o2.target_time_weight o2.reassignment_penalty o2.local_search_iterations
      (construct sd visits visitors av M o2).1 = _
    rw [hz]
    rfl
  rw [h2, ← construct_congr sd visits visitors av M o1 o2 hw hp]
  exact hsum

/-! ### Cost decomposition (spec §4.3) -/

/-- The cost formula as the spec states it: for each visit in order, the
travel leg from the previous location, plus `|start − target| · w_target`
when a target time is set, plus `w_reassign` when the visit's current
visitor differs from the route's visitor; no return-to-depot leg.  The
start times are taken as data (the scheduled windows' starts). -/
def route_cost_spec (visitor_id : Nat) (wt rp : Int) (matrix : List (List Int))
    (ci : List ((Int × Int) × Nat)) : Coord → List (Visit × Int) → Int
  | _, [] => 0
  | prev, (v, start) :: rest =>
    travel_time_fast prev v.location matrix ci
    + (match v.target_time with
       | some target => |start - target| * wt
       | none => 0)
    + (match v.current_visitor_id with
       | some cur => if cur ≠ visitor_id then rp else 0
       | none => 0)
    + route_cost_spec visitor_id wt rp matrix ci v.location rest

theorem schedule_visits_cost (aw : List (Int × Int)) (matrix : List (List Int))
    (ci : List ((Int × Int) × Nat)) (wt rp : Int) (vid : Nat) :
    ∀ (vs : List Visit) (t : Int) (wi : Nat) (prev : Coord)
      (ws : List (Int × Int)) (c : Int),
      schedule_visits aw matrix ci wt rp vid vs t wi prev = some (ws, c) →
      c = route_cost_spec vid wt rp matrix ci prev (vs.zip (ws.map Prod.fst))
  | [] => by
    intro t wi prev ws c h
    simp only [schedule_visits, Option.some.injEq, Prod.mk.injEq] at h
    obtain ⟨rfl, rfl⟩ := h
    simp [route_cost_spec]
  | visit :: rest => by
    intro t wi prev ws c h
    simp only [schedule_visits] at h
    split at h
    · exact absurd h (by simp)
    rename_i t1 hco
    split at h
    · exact absurd h (by simp)
    rename_i s kidx hffw
    split at h
    · exact absurd h (by simp)
    rename_i wsr cr hrec
    simp only [Option.some.injEq, Prod.mk.injEq] at h
    obtain ⟨rfl, rfl⟩ := h
    have hcr := schedule_visits_cost aw matrix ci wt rp vid rest _ _ _ _ _ hrec
    subst hcr
    simp only [List.map_cons, List.zip_cons_cons, route_cost_spec]
    rfl

/-- C8: For every visit sequence that `compute_schedule` reports feasible,
the returned cost equals the sum over visits, in order, of: the matrix
travel time from the previous location (starting at the visitor's
`start_location` when present, else the first visit's own location, which
makes the first leg zero given a zero diagonal) to the visit's location,
plus `|start − target_time| · target_time_weight` for visits with a target
time, plus `reassignment_penalty` for visits whose current visitor differs
from the route's visitor; no return-to-depot leg is charged. -/
theorem c8_cost_decomposition (sd : Int) (r : RouteState) (av : AvailFn)
    (matrix : List (List Int)) (ci : List ((Int × Int) × Nat)) (wt rp : Int)
    (ws : List (Int × Int)) (c : Int)
    (h : compute_schedule sd r av matrix ci wt rp = some (ws, c)) :
    (c = route_cost_spec r.visitor.id wt rp matrix ci
        (((r.visitor.start_location).orElse
          (fun _ => r.visits.head?.map Visit.location)).getD (0, 0))
        (r.visits.zip (ws.map Prod.fst))) ∧
    (∀ v0, r.visitor.start_location = none → r.visits.head? = some v0 →
      MatrixDiagZero matrix →
      travel_time_fast
        (((r.visitor.start_location).orElse
          (fun _ => r.visits.head?.map Visit.location)).getD (0, 0))
        v0.location matrix ci = 0) := by
  constructor
  · unfold compute_schedule at h
    rcases hav : av r.visitor.id sd with _ | aw
    · simp only [hav] at h
      exact Option.noConfusion h
    simp only [hav] at h
    by_cases hemp : aw = []
    · rw [if_pos hemp] at h; exact absurd h (by simp)
    rw [if_neg hemp] at h
    exact schedule_visits_cost aw matrix ci wt rp r.visitor.id r.visits _ _ _ _ _ h
  · intro v0 hstart hhead hdiag
    rw [hstart, hhead]
    show travel_time_fast v0.location v0.location matrix ci = 0
    unfold travel_time_fast
    by_cases hlt : ((ci.lookup (coord_to_int_key v0.location)).getD 0) < matrix.length
    · exact hdiag _ hlt
    · push_neg at hlt
      simp only [List.getD_eq_getElem?_getD]
      rw [List.getElem?_eq_none hlt]
      rfl

/-! ### Concrete fixtures for witnesses and counterexamples -/

/-- A plain visit with no pins, windows, targets or capabilities. -/
def plainVisit (id : Nat) (loc : Coord) (dur : Int) : Visit :=
  { id := id, estimated_duration_minutes := dur, committed_window := none,
    target_time := none, pin_type := .none, pinned_visitor := none,
    pinned_date := none, required_capabilities := [], location := loc,
    current_visitor_id := none }

/-- A plain visitor with a start location and no capabilities. -/
def plainVisitor (id : Nat) (loc : Coord) : Visitor :=
  { id := id, start_location := some loc, end_location := none, capabilities := [] }

/-- A Manhattan-distance matrix provider over the scaled-key coordinates. -/
def manhattanMatrix : MatrixFn := fun locs =>
  locs.map fun a => locs.map fun b => |a.1 - b.1| + |a.2 - b.2|

/-- An availability provider: one segment `[0, 28800]` for every visitor. -/
def alwaysAvail : AvailFn := fun _ _ => some [(0, 28800)]

/-- A three-visit route fixture for the relocate enumeration. -/
def relocFixtureRoutes : List RouteState :=
  [{ visitor := plainVisitor 1 (0, 0),
     visits := [plainVisit 10 (1, 0) 30, plainVisit 11 (2, 0) 30,
       plainVisit 12 (3, 0) 30],
     estimated_windows := [], total_travel_time := 0 }]

/-- C9 counterexample: in a single route of three visits, the claim says the
same-route move of the first visit (`i = 0`) to the position after the last
visit (`pos = 3`, which is neither `i` nor `i + 1`) is examined; the code's
candidate enumeration does not contain it (`insert_positions` for a
same-route move is `0..route_len`, exclusive). -/
theorem c9_counterexample :
    ¬ ((0, 0, 0, 3) ∈ relocate_candidates relocFixtureRoutes) ∧
    (0, 0, 0, 2) ∈ relocate_candidates relocFixtureRoutes := by decide

/-- C9 (amended): In each relocate pass, for every route and every visit
index `i` in that route, the same-route candidate insertion positions `pos`
are exactly those with `pos < |route.visits|` — the position after the last
visit is never examined — excluding the identity positions `pos = i` and
`pos = i + 1` and positions where the route's visitor lacks the visit's
required capabilities; for `pos > i` the actual insertion index after
removing the visit is `pos - 1`. -/
theorem c9_amended_same_route_enumeration (routes : List RouteState)
    (ri i pos : Nat) (r : RouteState) (v : Visit)
    (hr : routes[ri]? = some r) (hv : r.visits[i]? = some v) :
    ((ri, i, ri, pos) ∈ relocate_candidates routes ↔
      (pos < r.visits.length ∧ pos ≠ i ∧ pos ≠ i + 1 ∧
        (v.required_capabilities.isEmpty = true ∨
          (v.required_capabilities.all fun cap =>
            r.visitor.capabilities.contains cap) = true))) ∧
    (pos > i → relocate_actual_pos ri ri i pos = pos - 1) := by
  have hrget : routes.get? ri = some r := by
    rw [List.get?_eq_getElem?]; exact hr
  have hvget : r.visits.get? i = some v := by
    rw [List.get?_eq_getElem?]; exact hv
  constructor
  · unfold relocate_candidates
    constructor
    · intro h
      rw [List.mem_flatMap] at h
      obtain ⟨f, hfmem, h⟩ := h
      rcases hf : routes.get? f with _ | fr
      · rw [hf] at h; simp at h
      rw [hf] at h
      simp only at h
      rw [List.mem_flatMap] at h
      obtain ⟨vi, hvimem, h⟩ := h
      rcases hfv : fr.visits.get? vi with _ | visit
      · rw [hfv] at h; simp at h
      rw [hfv] at h
      simp only at h
      rw [List.mem_flatMap] at h
      obtain ⟨t, htmem, h⟩ := h
      split at h
      · simp at h
      rcases ht : routes.get? t with _ | tr
      · rw [ht] at h; simp at h
      rw [ht] at h
      simp only at h
      rw [List.mem_filterMap] at h
      obtain ⟨p, hpmem, hp⟩ := h
      split at hp
      · exact Option.noConfusion hp
      split at hp
      · exact Option.noConfusion hp
      rename_i hid hcap
      simp only [Option.some.injEq, Prod.mk.injEq] at hp
      obtain ⟨rfl, rfl, rfl, rfl⟩ := hp
      rw [hrget] at hf ht
      obtain rfl := Option.some_inj.mp hf
      obtain rfl := Option.some_inj.mp ht
      rw [hvget] at hfv
      obtain rfl := Option.some_inj.mp hfv
      rw [List.mem_range] at hpmem
      rw [if_pos rfl] at hpmem
      refine ⟨hpmem, ?_, ?_, ?_⟩
      · intro hcon; exact hid ⟨rfl, Or.inl hcon⟩
      · intro hcon; exact hid ⟨rfl, Or.inr hcon⟩
      · by_cases he : v.required_capabilities.isEmpty = true
        · exact Or.inl he
        · refine Or.inr ?_
          by_cases ha : (v.required_capabilities.all fun cap =>
              r.visitor.capabilities.contains cap) = true
          · exact ha
          · exact absurd ⟨he, ha⟩ hcap
    · rintro ⟨hlt, hni, hni1, hcap⟩
      rw [List.mem_flatMap]
      refine ⟨ri, List.mem_range.mpr (List.getElem?_eq_some.mp hr).1, ?_⟩
      rw [hrget]
      simp only
      rw [List.mem_flatMap]
      refine ⟨i, List.mem_range.mpr (List.getElem?_eq_some.mp hv).1, ?_⟩
      rw [hvget]
      simp only
      rw [List.mem_flatMap]
      refine ⟨ri, List.mem_range.mpr (List.getElem?_eq_some.mp hr).1, ?_⟩
      rw [if_neg (by simp)]
      rw [hrget]
      simp only
      rw [List.mem_filterMap]
      refine ⟨pos, ?_, ?_⟩
      · rw [List.mem_range]
        simpa using hlt
      · rw [if_neg (by
          rintro ⟨-, hcon | hcon⟩
          · exact hni hcon
          · exact hni1 hcon)]
        rw [if_neg (by
          rintro ⟨hne, hnall⟩
          rcases hcap with hcap | hcap
          · exact hne hcap
          · exact hnall hcap)]
  · intro hpos
    unfold relocate_actual_pos
    rw [if_pos ⟨rfl, hpos⟩]

/-- C7: Two calls to solve with structurally equal inputs and providers that
are pure functions of their arguments return structurally equal
`PlannerResult`s; and the per-visit insertion reduction — first minimum by
cost over the index-ordered evaluations, ties to the lowest route index — is
independent of the order in which the route evaluations were produced, since
the parallel collect restores index order. -/
theorem c7_determinism :
    (∀ (sd : Int) (visits : List Visit) (visitors : List Visitor)
      (av av' : AvailFn) (M M' : MatrixFn) (o : SolveOptions),
      (∀ vid d, av vid d = av' vid d) → (∀ ls, M ls = M' ls) →
      solve sd visits visitors av M o = solve sd visits visitors av' M' o) ∧
    (∀ (l l' : List (Nat × Nat × List (Int × Int) × Int)),
      l.Perm l' →
      List.Pairwise (fun a b => a.1 < b.1) l →
      List.Pairwise (fun a b => a.1 < b.1) l' →
      pick_min l = pick_min l') := by
  constructor
  · intro sd visits visitors av av' M M' o hav hM
    have h1 : av = av' := funext fun vid => funext fun d => hav vid d
    have h2 : M = M' := funext hM
    rw [h1, h2]
  · intro l l' hperm hs hs'
    haveI : IsAntisymm (Nat × Nat × List (Int × Int) × Int)
        (fun a b => a.1 < b.1) := ⟨by
      intro a b hab hba
      exact absurd (lt_trans hab hba) (lt_irrefl _)⟩
    rw [List.eq_of_perm_of_sorted hperm hs hs']

/-- C7 witness. -/
theorem c7_determinism_witness :
    solve 1 [plainVisit 10 (1, 0) 30] [plainVisitor 1 (0, 0)]
        alwaysAvail manhattanMatrix ⟨1, 300, 100⟩
      = solve 1 [plainVisit 10 (1, 0) 30] [plainVisitor 1 (0, 0)]
        alwaysAvail manhattanMatrix ⟨1, 300, 100⟩ ∧
    pick_min [(0, 0, ([] : List (Int × Int)), (5 : Int)), (1, 2, [], 3)]
      = pick_min [(0, 0, ([] : List (Int × Int)), (5 : Int)), (1, 2, [], 3)] :=
  ⟨c7_determinism.1 1 [plainVisit 10 (1, 0) 30] [plainVisitor 1 (0, 0)]
      alwaysAvail alwaysAvail manhattanMatrix manhattanMatrix ⟨1, 300, 100⟩
      (fun _ _ => rfl) (fun _ => rfl),
   c7_determinism.2 _ _ (List.Perm.refl _) (by decide) (by decide)⟩

/-- C1 (code bug): a visit whose `pinned_visitor` id does not occur in the
input visitor list is silently dropped by solve — it is bucketed under the
unknown visitor id during classification, the seeding loop only drains the
buckets of input visitors, and no unassigned entry is recorded.  Its id
appears zero times across `routes[*].visit_ids ∪ unassigned[*].visit_id`,
not exactly once as the partition invariant demands. -/
theorem c1_pinned_to_unknown_visitor_dropped :
    (((solve 1
        [{ plainVisit 10 (1, 0) 30 with
            pin_type := .visitor
            pinned_visitor := some 99 }]
        [plainVisitor 1 (0, 0)] alwaysAvail manhattanMatrix
        ⟨1, 300, 100⟩).routes.flatMap RouteResult.visit_ids).count 10 = 0) ∧
    (((solve 1
        [{ plainVisit 10 (1, 0) 30 with
            pin_type := .visitor
            pinned_visitor := some 99 }]
        [plainVisitor 1 (0, 0)] alwaysAvail manhattanMatrix
        ⟨1, 300, 100⟩).unassigned.map UnassignedVisit.visit_id).count 10 = 0) := by
  decide

/-! ### C10: travel-time lookup safety -/

/-- The coordinates whose integer keys `schedule_visits` feeds to
`travel_time_fast` while scheduling a route: the initial `prev_location`
(the visitor's start location, else the first visit's location — matching
`compute_schedule`, whose `(0, 0)` fallback is reached only when the route
is empty) followed by every visit's location; after each step
`prev_location` becomes the location of the visit just placed, which is in
the map part of this list.  An empty route schedules no visits and performs
no lookups. -/
def schedule_lookup_locations (r : RouteState) : List Coord :=
  match r.visits with
  | [] => []
  | v0 :: rest =>
    (((r.visitor.start_location).orElse (fun _ => some v0.location)).getD (0, 0))
      :: (v0 :: rest).map Visit.location

theorem dedupe_aux_keys : ∀ (l : List Coord) (seen : List (Int × Int)) (c : Coord),
    c ∈ l → coord_to_int_key c ∈ seen ∨
      coord_to_int_key c ∈ (dedupe_aux l seen).map coord_to_int_key := by
  intro l
  induction l with
  | nil => intro seen c h; exact absurd h (List.not_mem_nil c)
  | cons a l ih =>
    intro seen c hc
    simp only [dedupe_aux]
    by_cases hk : coord_to_int_key a ∈ seen
    · rw [if_pos hk]
      rcases List.mem_cons.mp hc with h | h
      · subst h; exact Or.inl hk
      · exact ih seen c h
    · rw [if_neg hk]
      rcases List.mem_cons.mp hc with h | h
      · subst h; exact Or.inr (by simp)
      · rcases ih (coord_to_int_key a :: seen) c h with h1 | h1
        · rcases List.mem_cons.mp h1 with h2 | h2
          · exact Or.inr (by rw [List.map_cons]; exact List.mem_cons.mpr (Or.inl h2))
          · exact Or.inl h2
        · exact Or.inr (by rw [List.map_cons]; exact List.mem_cons.mpr (Or.inr h1))

theorem build_coord_index_keys (L : List Coord) :
    (build_coord_index L).map Prod.fst = L.map coord_to_int_key := by
  unfold build_coord_index
  rw [List.map_map]
  rw [show (Prod.fst ∘ fun p : Nat × Coord => (coord_to_int_key p.2, p.1))
      = coord_to_int_key ∘ Prod.snd from rfl]
  rw [← List.map_map, List.enum_map_snd]

theorem lookup_mem_of_some : ∀ (l : List ((Int × Int) × Nat)) (k : Int × Int) (i : Nat),
    l.lookup k = some i → (k, i) ∈ l := by
  intro l
  induction l with
  | nil => intro k i h; exact absurd h (by simp [List.lookup])
  | cons a l ih =>
    intro k i h
    obtain ⟨k', v⟩ := a
    simp only [List.lookup] at h
    by_cases he : k = k'
    · subst he
      simp only [beq_self_eq_true] at h
      injection h with h
      subst h
      exact List.mem_cons_self _ _
    · have hb : (k == k') = false := beq_eq_false_iff_ne.mpr he
      rw [hb] at h
      exact List.mem_cons_of_mem _ (ih k i h)

theorem lookup_some_of_key_mem : ∀ (l : List ((Int × Int) × Nat)) (k : Int × Int),
    k ∈ l.map Prod.fst → ∃ i, l.lookup k = some i := by
  intro l
  induction l with
  | nil => intro k h; exact absurd h (List.not_mem_nil k)
  | cons a l ih =>
    intro k hk
    obtain ⟨k', v⟩ := a
    simp only [List.map_cons, List.mem_cons] at hk
    by_cases he : k = k'
    · subst he
      exact ⟨v, by simp [List.lookup]⟩
    · obtain ⟨i, hi⟩ := ih k (hk.resolve_left he)
      have hb : (k == k') = false := beq_eq_false_iff_ne.mpr he
      exact ⟨i, by simp only [List.lookup, hb]; exact hi⟩

theorem mem_build_coord_index_lt (L : List Coord) (k : Int × Int) (i : Nat)
    (h : (k, i) ∈ build_coord_index L) : i < L.length := by
  unfold build_coord_index at h
  obtain ⟨p, hp, he⟩ := List.mem_map.mp h
  have hb : p.1 < 0 + L.length :=
    List.fst_lt_add_of_mem_enumFrom (show p ∈ List.enumFrom 0 L from hp)
  have : p.1 = i := congrArg Prod.snd he
  omega

theorem collect_locations_lookup (visits : List Visit) (visitors : List Visitor)
    (c : Coord)
    (hc : c ∈ ((visitors.flatMap fun r =>
        (r.start_location.toList) ++ (r.end_location.toList))
      ++ visits.map Visit.location)) :
    ∃ idx, (build_coord_index (collect_locations visits visitors)).lookup
        (coord_to_int_key c) = some idx ∧
      idx < (collect_locations visits visitors).length := by
  rcases dedupe_aux_keys _ [] c hc with h1 | h1
  · exact absurd h1 (List.not_mem_nil _)
  · have h2 : coord_to_int_key c
        ∈ (collect_locations visits visitors).map coord_to_int_key := h1
    rw [← build_coord_index_keys] at h2
    obtain ⟨i, hi⟩ := lookup_some_of_key_mem _ _ h2
    exact ⟨i, hi, mem_build_coord_index_lt _ _ _ (lookup_mem_of_some _ _ _ hi)⟩

/-- C10: every coordinate key the scheduler can hand to `travel_time_fast`
while scheduling a well-formed route (one whose visitor comes from the input
visitor list and whose visits come from the input visit list) is present in
the coordinate index built from `collect_locations`, with an index strictly
below both the number of deduplicated locations and the number of matrix
rows; every route the solver produces is well formed in this sense; and an
empty route consults no coordinates at all, so the `(0, 0)` fallback for a
start-location-less visitor with no visits is never looked up. -/
theorem c10_lookup_safety (sd : Int) (visits : List Visit) (visitors : List Visitor)
    (av : AvailFn) (M : MatrixFn) (o : SolveOptions)
    (hshape : (M (collect_locations visits visitors)).length
      = (collect_locations visits visitors).length) :
    (∀ r : RouteState, r.visitor ∈ visitors → (∀ v ∈ r.visits, v ∈ visits) →
      ∀ c ∈ schedule_lookup_locations r,
        ∃ idx, (build_coord_index (collect_locations visits visitors)).lookup
            (coord_to_int_key c) = some idx ∧
          idx < (collect_locations visits visitors).length ∧
          idx < (M (collect_locations visits visitors)).length) ∧
    (∀ r ∈ (solveInternal sd visits visitors av M o).1,
      r.visitor ∈ visitors ∧ ∀ v ∈ r.visits, v ∈ visits) ∧
    (∀ r : RouteState, r.visits = [] → schedule_lookup_locations r = []) := by
  refine ⟨?_, ?_, ?_⟩
  · intro r hrv hvis c hc
    have hpre : c ∈ ((visitors.flatMap fun w =>
          (w.start_location.toList) ++ (w.end_location.toList))
        ++ visits.map Visit.location) := by
      cases hv : r.visits with
      | nil => rw [schedule_lookup_locations, hv] at hc; exact absurd hc (by simp)
      | cons v0 rest =>
        rw [schedule_lookup_locations, hv] at hc
        rcases List.mem_cons.mp hc with h | h
        · cases hs : r.visitor.start_location with
          | some s =>
            rw [hs] at h
            simp only [Option.orElse, Option.getD] at h
            subst h
            refine List.mem_append_left _ (List.mem_flatMap.mpr ⟨r.visitor, hrv, ?_⟩)
            rw [hs]
            exact List.mem_append_left _ (by simp)
          | none =>
            rw [hs] at h
            simp only [Option.orElse, Option.getD] at h
            subst h
            refine List.mem_append_right _ (List.mem_map.mpr ⟨v0, ?_, rfl⟩)
            exact hvis v0 (by rw [hv]; exact List.mem_cons_self _ _)
        · obtain ⟨v, hvmem, hvloc⟩ := List.mem_map.mp h
          refine List.mem_append_right _ (List.mem_map.mpr ⟨v, ?_, hvloc⟩)
          exact hvis v (by rw [hv]; exact hvmem)
    obtain ⟨idx, hl, hlt⟩ := collect_locations_lookup visits visitors c hpre
    exact ⟨idx, hl, hlt, by omega⟩
  · intro r hr
    obtain ⟨_, hmap, hsub, _⟩ := solveInternal_routes_spec sd visits visitors av M o
    refine ⟨?_, hsub r hr⟩
    have := List.mem_map_of_mem RouteState.visitor hr
    rw [hmap] at this
    exact this
  · intro r h
    rw [schedule_lookup_locations, h]

/-- C10 witness. -/
theorem c10_lookup_safety_witness :
    ((manhattanMatrix (collect_locations [plainVisit 10 (1, 0) 30]
        [plainVisitor 1 (0, 0)])).length
      = (collect_locations [plainVisit 10 (1, 0) 30] [plainVisitor 1 (0, 0)]).length) ∧
    (∀ r ∈ (solveInternal 1 [plainVisit 10 (1, 0) 30] [plainVisitor 1 (0, 0)]
        alwaysAvail manhattanMatrix ⟨1, 300, 100⟩).1,
      r.visitor ∈ [plainVisitor 1 (0, 0)] ∧
      ∀ v ∈ r.visits, v ∈ [plainVisit 10 (1, 0) 30]) :=
  ⟨by decide,
   (c10_lookup_safety 1 [plainVisit 10 (1, 0) 30] [plainVisitor 1 (0, 0)]
      alwaysAvail manhattanMatrix ⟨1, 300, 100⟩ (by decide)).2.1⟩

/-! ### Witness fixtures -/

/-- The single route solve produces for one plain visit and one visitor. -/
def c2FixtureRoute : RouteState :=
  { visitor := plainVisitor 1 (0, 0), visits := [plainVisit 10 (1, 0) 30],
    estimated_windows := [(1, 1801)], total_travel_time := 1 }

/-- A visit with a committed window. -/
def cwVisit : Visit :=
  { plainVisit 20 (1, 0) 30 with committed_window := some (600, 4200) }

/-- The single route solve produces for the committed-window visit. -/
def cwRoute : RouteState :=
  { visitor := plainVisitor 1 (0, 0), visits := [cwVisit],
    estimated_windows := [(600, 2400)], total_travel_time := 1 }

/-- One still-empty route, as cheapest insertion first sees it. -/
def c5Routes : List RouteState :=
  [{ visitor := plainVisitor 1 (0, 0), visits := [], estimated_windows := []
     total_travel_time := 0 }]

/-- The Manhattan matrix over the two fixture locations. -/
def c5Matrix : List (List Int) :=
  manhattanMatrix [((0 : Int), (0 : Int)), ((1 : Int), (0 : Int))]

/-- The coordinate index over the two fixture locations. -/
def c5Key : List ((Int × Int) × Nat) :=
  build_coord_index [((0 : Int), (0 : Int)), ((1 : Int), (0 : Int))]

/-- A one-visit route whose schedule the cost decomposition is checked on. -/
def c8Route : RouteState :=
  { visitor := plainVisitor 1 (0, 0), visits := [plainVisit 10 (1, 0) 30],
    estimated_windows := [], total_travel_time := 0 }

/-- The head route of the relocate fixture. -/
def c9HeadRoute : RouteState :=
  { visitor := plainVisitor 1 (0, 0),
    visits := [plainVisit 10 (1, 0) 30, plainVisit 11 (2, 0) 30,
      plainVisit 12 (3, 0) 30],
    estimated_windows := [], total_travel_time := 0 }

/-- C2 witness. -/
theorem c2_route_windows_invariants_witness :
    MatrixNonneg (manhattanMatrix (collect_locations [plainVisit 10 (1, 0) 30]
      [plainVisitor 1 (0, 0)])) ∧
    MatrixDiagZero (manhattanMatrix (collect_locations [plainVisit 10 (1, 0) 30]
      [plainVisitor 1 (0, 0)])) ∧
    (∀ v ∈ [plainVisit 10 (1, 0) 30], 0 < v.estimated_duration_minutes) ∧
    c2FixtureRoute ∈ (solveInternal 1 [plainVisit 10 (1, 0) 30]
      [plainVisitor 1 (0, 0)] alwaysAvail manhattanMatrix ⟨1, 300, 100⟩).1 ∧
    (c2FixtureRoute.estimated_windows.length = c2FixtureRoute.visits.length ∧
     (∀ (k : Nat) (v : Visit) (w : Int × Int), c2FixtureRoute.visits[k]? = some v →
       c2FixtureRoute.estimated_windows[k]? = some w →
       w.2 = w.1 + v.estimated_duration_minutes * 60) ∧
     List.Chain' (fun w w' => w.2 ≤ w'.1) c2FixtureRoute.estimated_windows ∧
     (∀ w ∈ c2FixtureRoute.estimated_windows, ∃ aw,
       alwaysAvail c2FixtureRoute.visitor.id 1 = some aw ∧
       ∃ seg ∈ aw, seg.1 ≤ w.1 ∧ w.2 ≤ seg.2)) :=
  ⟨by unfold MatrixNonneg; decide, by unfold MatrixDiagZero; decide, by decide,
   by decide,
   c2_route_windows_invariants 1 [plainVisit 10 (1, 0) 30] [plainVisitor 1 (0, 0)]
     alwaysAvail manhattanMatrix ⟨1, 300, 100⟩ (by unfold MatrixNonneg; decide)
     (by unfold MatrixDiagZero; decide) (by decide)
     c2FixtureRoute (by decide)⟩

/-- C3 witness. -/
theorem c3_committed_window_respected_witness :
    cwRoute ∈ (solveInternal 1 [cwVisit] [plainVisitor 1 (0, 0)] alwaysAvail
      manhattanMatrix ⟨1, 300, 100⟩).1 ∧
    cwRoute.visits[0]? = some cwVisit ∧
    cwRoute.estimated_windows[0]? = some (600, 2400) ∧
    cwVisit.committed_window = some (600, 4200) ∧
    ((600 : Int) ≤ ((600 : Int), (2400 : Int)).1 ∧
     ((600 : Int), (2400 : Int)).1 ≤ 4200 ∧
     ((600 : Int), (2400 : Int)).1 + cwVisit.estimated_duration_minutes * 60 ≤ 4200) :=
  ⟨by decide, by decide, by decide, by decide,
   c3_committed_window_respected 1 [cwVisit] [plainVisitor 1 (0, 0)] alwaysAvail
     manhattanMatrix ⟨1, 300, 100⟩ cwRoute (by decide) 0 cwVisit (600, 2400)
     (by decide) (by decide) 600 4200 (by decide)⟩

/-- C4 witness. -/
theorem c4_free_visit_unassigned_reason_witness :
    (plainVisit 10 (1, 0) 30, UnassignedReason.noCapableVisitor)
      ∈ (solveInternal 1 [plainVisit 10 (1, 0) 30] [] alwaysAvail manhattanMatrix
          ⟨1, 300, 100⟩).2 ∧
    classify_visit 1 (plainVisit 10 (1, 0) 30) = .toAssign ∧
    ((visit_is_compatible (plainVisit 10 (1, 0) 30) [] = false →
       UnassignedReason.noCapableVisitor = .noCapableVisitor) ∧
     (visit_is_compatible (plainVisit 10 (1, 0) 30) [] = true →
       UnassignedReason.noCapableVisitor =
         if ([] : List Visitor).any (fun r =>
             visitor_can_do (plainVisit 10 (1, 0) 30) r && (alwaysAvail r.id 1).isSome)
         then .noFeasibleWindow else .noCapableVisitor)) :=
  ⟨by decide, by decide,
   c4_free_visit_unassigned_reason 1 [plainVisit 10 (1, 0) 30] [] alwaysAvail
     manhattanMatrix ⟨1, 300, 100⟩ (plainVisit 10 (1, 0) 30) .noCapableVisitor
     (by decide) (by decide)⟩

/-- C5 witness. -/
theorem c5_insertion_choice_optimal_witness :
    insertion_choice 1 alwaysAvail c5Matrix c5Key 1 300 (plainVisit 10 (1, 0) 30)
      c5Routes = some (0, 0, [(1, 1801)], 1) ∧
    ((∃ r, c5Routes[0]? = some r ∧
       visitor_can_do (plainVisit 10 (1, 0) 30) r.visitor = true ∧
       0 < r.visits.length + 1 ∧
       compute_schedule 1 (insertion_candidate (plainVisit 10 (1, 0) 30) r 0)
         alwaysAvail c5Matrix c5Key 1 300 = some ([(1, 1801)], 1)) ∧
     (∀ (ri' pos' : Nat) (r' : RouteState) (ws' : List (Int × Int)) (c' : Int),
       c5Routes[ri']? = some r' →
       visitor_can_do (plainVisit 10 (1, 0) 30) r'.visitor = true →
       pos' < r'.visits.length + 1 →
       compute_schedule 1 (insertion_candidate (plainVisit 10 (1, 0) 30) r' pos')
         alwaysAvail c5Matrix c5Key 1 300 = some (ws', c') →
       (1 : Int) ≤ c' ∧ (c' = 1 → 0 < ri' ∨ (0 = ri' ∧ 0 ≤ pos')))) :=
  ⟨by decide,
   c5_insertion_choice_optimal 1 alwaysAvail c5Matrix c5Key 1 300
     (plainVisit 10 (1, 0) 30) c5Routes 0 0 [(1, 1801)] 1 (by decide)⟩

/-- C6 witness. -/
theorem c6_local_search_monotone_witness :
    ((⟨1, 300, 100⟩ : SolveOptions).target_time_weight
      = (⟨1, 300, 0⟩ : SolveOptions).target_time_weight) ∧
    ((⟨1, 300, 100⟩ : SolveOptions).reassignment_penalty
      = (⟨1, 300, 0⟩ : SolveOptions).reassignment_penalty) ∧
    (1 ≤ (⟨1, 300, 100⟩ : SolveOptions).local_search_iterations) ∧
    ((⟨1, 300, 0⟩ : SolveOptions).local_search_iterations = 0) ∧
    (((solve 1 [plainVisit 10 (1, 0) 30] [plainVisitor 1 (0, 0)] alwaysAvail
        manhattanMatrix ⟨1, 300, 100⟩).routes.map RouteResult.total_travel_time).sum
      ≤ ((solve 1 [plainVisit 10 (1, 0) 30] [plainVisitor 1 (0, 0)] alwaysAvail
          manhattanMatrix ⟨1, 300, 0⟩).routes.map
            RouteResult.total_travel_time).sum) :=
  ⟨rfl, rfl, by decide, rfl,
   c6_local_search_monotone 1 [plainVisit 10 (1, 0) 30] [plainVisitor 1 (0, 0)]
     alwaysAvail manhattanMatrix ⟨1, 300, 100⟩ ⟨1, 300, 0⟩ rfl rfl (by decide) rfl⟩

/-- C8 witness. -/
theorem c8_cost_decomposition_witness :
    compute_schedule 1 c8Route alwaysAvail c5Matrix c5Key 1 300
      = some ([(1, 1801)], 1) ∧
    (((1 : Int) = route_cost_spec c8Route.visitor.id 1 300 c5Matrix c5Key
        (((c8Route.visitor.start_location).orElse
          (fun _ => c8Route.visits.head?.map Visit.location)).getD (0, 0))
        (c8Route.visits.zip (([(1, 1801)] : List (Int × Int)).map Prod.fst))) ∧
     (∀ v0, c8Route.visitor.start_location = none →
       c8Route.visits.head? = some v0 →
       MatrixDiagZero c5Matrix →
       travel_time_fast
         (((c8Route.visitor.start_location).orElse
           (fun _ => c8Route.visits.head?.map Visit.location)).getD (0, 0))
         v0.location c5Matrix c5Key = 0)) :=
  ⟨by decide,
   c8_cost_decomposition 1 c8Route alwaysAvail c5Matrix c5Key 1 300
     [(1, 1801)] 1 (by decide)⟩

/-- C9 witness for the amended statement. -/
theorem c9_amended_same_route_enumeration_witness :
    relocFixtureRoutes[0]? = some c9HeadRoute ∧
    c9HeadRoute.visits[0]? = some (plainVisit 10 (1, 0) 30) ∧
    (((0, 0, 0, 2) ∈ relocate_candidates relocFixtureRoutes ↔
       (2 < c9HeadRoute.visits.length ∧ 2 ≠ 0 ∧ 2 ≠ 0 + 1 ∧
        ((plainVisit 10 (1, 0) 30).required_capabilities.isEmpty = true ∨
         ((plainVisit 10 (1, 0) 30).required_capabilities.all fun cap =>
           c9HeadRoute.visitor.capabilities.contains cap) = true))) ∧
     (2 > 0 → relocate_actual_pos 0 0 0 2 = 2 - 1)) :=
  ⟨by decide, by decide,
   c9_amended_same_route_enumeration relocFixtureRoutes 0 0 2 c9HeadRoute
     (plainVisit 10 (1, 0) 30) (by decide) (by decide)⟩

end VrpPlanner
